import Mathlib

/-!
# Verification of the compose-diff core

Shallow embedding of the normalization + structural diff + severity
classification + rule-override engine of the `compose-diff` repository
(`internal/models/ir.go`, the `diff` package, `internal/parser/normalizer.go`,
the `rules` part of `ir.go`, and `cmd/root.go`'s `applyRules`), together with
proofs about the embedded definitions.

Modelling conventions:
* Go `map[string]V` values are represented as association lists
  `List (String × V)`; `m[k]` (which yields the zero value when the key is
  absent) is `(m.lookup k).getD default`, and iteration over the key set is
  `(m.map Prod.fst).dedup` (deduplicated because a Go map cannot hold a key
  twice).  Every consumer of the key order in the source sorts the keys, so
  representing the nondeterministic Go map iteration order by the list order
  is harmless.
* Go `*string` / `*T` pointers used as optional values are `Option`.
* The dynamic `interface{}` values stored in `Change.Before`/`Change.After`
  are the inductive `Value` below; Go `nil` is `Value.null`.
* Go `sort.Slice`/`sort.Strings` with a strict comparator `less` is modelled
  as `List.insertionSort` with the non-strict closure of `less` (a
  deterministic sort agreeing with Go's on slices without comparator ties).
* Severities are plain strings, as in the source (`type Severity string`),
  because the rule engine can inject arbitrary severity strings.
-/

namespace ComposeDiff

/-! ## Data model: `internal/models/ir.go` -/

/-- `BuildIR` (ir.go). `Args` is a Go map, modelled as an association list. -/
structure BuildIR where
  context : String
  dockerfile : String
  args : List (String × String)
  target : String
deriving DecidableEq, Inhabited

/-- `PortIR` (ir.go): a normalized port mapping. -/
structure PortIR where
  hostIP : String
  hostPort : String
  containerPort : String
  protocol : String
deriving DecidableEq, Inhabited

/-- `MountIR` (ir.go): a normalized volume mount. -/
structure MountIR where
  type : String
  source : String
  target : String
  readOnly : Bool
deriving DecidableEq, Inhabited

/-- `HealthcheckIR` (ir.go). -/
structure HealthcheckIR where
  test : List String
  interval : String
  timeout : String
  retries : Int
  startPeriod : String
  disable : Bool
deriving DecidableEq, Inhabited

/-- `ServiceIR` (ir.go).  `env` maps a key to an optional value: a key bound
to `none` is declared-but-unset, distinct from an absent key. -/
structure ServiceIR where
  image : Option String
  build : Option BuildIR
  env : List (String × Option String)
  envFiles : List String
  ports : List PortIR
  volumes : List MountIR
  networks : List String
  dependsOn : List String
  healthcheck : Option HealthcheckIR
  command : List String
  entrypoint : List String
  profiles : List String
  restart : Option String
  labels : List (String × String)
deriving DecidableEq, Inhabited

/-- `VolumeIR` (ir.go): a top-level volume definition. -/
structure VolumeIR where
  driver : String
  driverOpts : List (String × String)
  external : Bool
  name : String
  labels : List (String × String)
deriving DecidableEq, Inhabited

/-- `NetworkIR` (ir.go): a top-level network definition. -/
structure NetworkIR where
  driver : String
  driverOpts : List (String × String)
  external : Bool
  name : String
  labels : List (String × String)
deriving DecidableEq, Inhabited

/-- `ComposeIR` (ir.go): the canonical configuration tree. -/
structure ComposeIR where
  services : List (String × ServiceIR)
  volumes : List (String × VolumeIR)
  networks : List (String × NetworkIR)
deriving DecidableEq, Inhabited

/-- `ChangeKind` (ir.go). -/
inductive ChangeKind where
  | added
  | removed
  | modified
deriving DecidableEq, Inhabited

/-- `Scope` (ir.go). -/
inductive Scope where
  | service
  | volume
  | network
deriving DecidableEq, Inhabited

/-- `SeverityInfo` (ir.go); severities are strings in the source. -/
def severityInfo : String := "info"

/-- `SeverityWarning` (ir.go). -/
def severityWarning : String := "warning"

/-- `SeverityBreaking` (ir.go). -/
def severityBreaking : String := "breaking"

/-- The dynamic (`interface{}`) values the differ stores in
`Change.Before`/`Change.After`; `null` is Go `nil`. -/
inductive Value where
  | null
  | str (s : String)
  | strList (l : List String)
  | svc (s : ServiceIR)
  | vol (v : VolumeIR)
  | net (n : NetworkIR)
  | port (p : PortIR)
  | mount (m : MountIR)
  | health (h : HealthcheckIR)
deriving DecidableEq, Inhabited

/-- `Change` (ir.go): one atomic difference. -/
structure Change where
  kind : ChangeKind
  scope : Scope
  name : String
  path : String
  before : Value
  after : Value
  severity : String
deriving DecidableEq, Inhabited

/-- `DiffSummary` (ir.go). -/
structure DiffSummary where
  servicesAdded : Nat
  servicesRemoved : Nat
  servicesChanged : Nat
  volumesAdded : Nat
  volumesRemoved : Nat
  networksAdded : Nat
  networksRemoved : Nat
  totalChanges : Nat
  breakingCount : Nat
  warningCount : Nat
  infoCount : Nat
deriving DecidableEq, Inhabited

/-- `DiffReport` (ir.go). -/
structure DiffReport where
  summary : DiffSummary
  changes : List Change
deriving DecidableEq, Inhabited

/-- `NewDiffReport` (ir.go): empty report (Go zero-value summary). -/
def newDiffReport : DiffReport :=
  { summary := default, changes := [] }

/-- `DiffReport.AddChange` (ir.go): append the change and update the summary
(total plus the per-severity bucket; an unknown severity string hits no
bucket, matching the Go `switch` without a default case). -/
def addChange (r : DiffReport) (c : Change) : DiffReport :=
  let s := r.summary
  let s := { s with totalChanges := s.totalChanges + 1 }
  let s :=
    if c.severity = severityBreaking then
      { s with breakingCount := s.breakingCount + 1 }
    else if c.severity = severityWarning then
      { s with warningCount := s.warningCount + 1 }
    else if c.severity = severityInfo then
      { s with infoCount := s.infoCount + 1 }
    else s
  { summary := s, changes := r.changes ++ [c] }

/-- `SeverityLevel` (ir.go): numeric level, 0 for unknown strings. -/
def SeverityLevel (s : String) : Nat :=
  if s = severityBreaking then 3
  else if s = severityWarning then 2
  else if s = severityInfo then 1
  else 0

/-- `ParseSeverity` (ir.go): parse a string, defaulting to `info`. -/
def ParseSeverity (s : String) : String :=
  if s = "breaking" then severityBreaking
  else if s = "warning" then severityWarning
  else severityInfo

/-! ## Generic helpers (diff package, part_002) -/

/-- Go's `<=` on strings (byte-lexicographic, which for UTF-8 coincides with
the lexicographic order on the character lists). -/
def strLe (a b : String) : Prop := a.data ≤ b.data

instance : DecidableRel strLe := fun a b => by
  unfold strLe; infer_instance

instance : IsTotal String strLe :=
  ⟨fun a b => le_total a.data b.data⟩

instance : IsTrans String strLe :=
  ⟨fun _ _ _ h h' => le_trans h h'⟩

/-- Sorting a list of strings (`sort.Strings`). -/
def sortStrings (l : List String) : List String :=
  l.insertionSort strLe

/-- `mapKeys` (diff/compare.go): the key set of a Go map, here the
deduplicated keys of the association list. -/
def mapKeys {V : Type} (m : List (String × V)) : List String :=
  (m.map Prod.fst).dedup

/-- `envKeys` (diff/compare.go): sorted key set of an environment map. -/
def envKeys (m : List (String × Option String)) : List String :=
  sortStrings (m.map Prod.fst).dedup

/-- Go map indexing `m[k]`: the mapped value, or the zero value. -/
def mapGet {V : Type} [Inhabited V] (m : List (String × V)) (k : String) : V :=
  (m.lookup k).getD default

/-- Go map indexing for `map[string]*string` (zero value `nil`). -/
def envGet (m : List (String × Option String)) (k : String) : Option String :=
  (m.lookup k).getD none

/-- Go map assignment `m[k] = v`: replace the binding or add one. -/
def upsert {V : Type} : List (String × V) → String → V → List (String × V)
  | [], k, v => [(k, v)]
  | (k', v') :: rest, k, v =>
    if k' = k then (k', v) :: rest else (k', v') :: upsert rest k v

/-- `diffSets` (diff/compare.go): added / removed / common key sets, each
sorted (`sort.Strings`); membership tests model the Go set maps. -/
def diffSets (old new : List String) : List String × List String × List String :=
  (sortStrings (new.dedup.filter (fun s => decide (s ∉ old))),
   sortStrings (old.dedup.filter (fun s => decide (s ∉ new))),
   sortStrings (old.dedup.filter (fun s => decide (s ∈ new))))

/-- `ptrEqual` (diff/compare.go): equality of two `*string`. -/
def ptrEqual : Option String → Option String → Bool
  | none, none => true
  | some a, some b => a == b
  | _, _ => false

/-- `ptrValue` (diff/compare.go): dereference a `*string` into an
`interface{}` value (`nil` stays `nil`). -/
def ptrValue : Option String → Value
  | none => .null
  | some s => .str s

/-- A `*HealthcheckIR` as an `interface{}` value. -/
def healthValue : Option HealthcheckIR → Value
  | none => .null
  | some h => .health h

/-- `sliceEqual` (diff/compare.go): element-wise string slice equality. -/
def sliceEqual : List String → List String → Bool
  | [], [] => true
  | a :: as, b :: bs => a == b && sliceEqual as bs
  | _, _ => false

/-- `healthcheckEqual` (diff/compare.go): `nil`-aware deep equality. -/
def healthcheckEqual : Option HealthcheckIR → Option HealthcheckIR → Bool
  | none, none => true
  | some a, some b => a == b
  | _, _ => false

/-- `changeKindForPtrs` (diff/compare.go). -/
def changeKindForPtrs {α : Type} : Option α → Option α → ChangeKind
  | none, _ => .added
  | _, none => .removed
  | _, _ => .modified

/-- The synthetic port key `hostPort:containerPort/protocol` built by
`portMap` (diff/compare.go). -/
def portKey (p : PortIR) : String :=
  p.hostPort ++ ":" ++ p.containerPort ++ "/" ++ p.protocol

/-- `portMap` (diff/compare.go): index ports by their synthetic key
(later duplicates overwrite, as in a Go map). -/
def portMap (ports : List PortIR) : List (String × PortIR) :=
  ports.foldl (fun m p => upsert m (portKey p) p) []

/-- `mountMap` (diff/compare.go): index mounts by target path. -/
def mountMap (mounts : List MountIR) : List (String × MountIR) :=
  mounts.foldl (fun m mt => upsert m mt.target mt) []

/-! ## String helpers modelling Go's `strings` package -/

/-- `listIsPrefix needle hay`: does `hay` start with `needle`?
(Models `strings.HasPrefix` on rune lists.) -/
def listIsPrefix : List Char → List Char → Bool
  | [], _ => true
  | _ :: _, [] => false
  | c :: cs, d :: ds => c == d && listIsPrefix cs ds

/-- `listIsSub needle hay`: does `needle` occur contiguously in `hay`?
(Models `strings.Contains` on rune lists.) -/
def listIsSub (needle : List Char) : List Char → Bool
  | [] => needle.isEmpty
  | d :: ds => listIsPrefix needle (d :: ds) || listIsSub needle ds

/-- `strings.Contains s sub`. -/
def goContains (s sub : String) : Bool :=
  listIsSub sub.toList s.toList

/-- `strings.HasSuffix s suf`. -/
def goHasSuffix (s suf : String) : Bool :=
  listIsPrefix suf.toList.reverse s.toList.reverse

/-- `strings.Split l sep` for a one-rune separator; always returns at least
one (possibly empty) segment. -/
def splitOnChar (sep : Char) : List Char → List (List Char)
  | [] => [[]]
  | c :: cs =>
    match splitOnChar sep cs with
    | [] => if c == sep then [[], []] else [[c]]
    | r :: rs => if c == sep then [] :: r :: rs else (c :: r) :: rs

/-! ## Severity heuristics: `internal/diff/severity.go` -/

/-- `extractTag` (severity.go): the tag of an image reference — empty for
digest references, `latest` when no tag is present, otherwise the text after
the last colon (unless that text contains `/`, i.e. it is a registry port). -/
def extractTag (image : String) : String :=
  let l := image.toList
  if l.contains '@' then ""
  else
    let parts := splitOnChar ':' l
    if parts.length < 2 then "latest"
    else
      let tag := parts.getLastD []
      if tag.contains '/' then "latest" else String.mk tag

/-- `extractMajorVersion` (severity.go): strip one leading `v`, then take the
leading digit run (the `^(\d+)` capture); empty for `latest`/non-numeric. -/
def extractMajorVersion (tag : String) : String :=
  if tag = "" || tag = "latest" then ""
  else
    let t := if listIsPrefix ['v'] tag.toList then tag.toList.drop 1 else tag.toList
    let digits := t.takeWhile Char.isDigit
    if digits.isEmpty then "" else String.mk digits

/-- `imageSeverity` (severity.go): default severity of an image change. -/
def imageSeverity (old new : Option String) : String :=
  match old, new with
  | some o, some n =>
    let oldTag := extractTag o
    let newTag := extractTag n
    if oldTag = newTag then severityInfo
    else
      let oldMajor := extractMajorVersion oldTag
      let newMajor := extractMajorVersion newTag
      if oldMajor ≠ "" ∧ newMajor ≠ "" ∧ oldMajor ≠ newMajor then severityWarning
      else severityInfo
  | _, _ => severityInfo

/-- The numeric value of a digit string. -/
def digitsToNat (s : String) : Nat :=
  s.toList.foldl (fun n c => n * 10 + (c.toNat - 48)) 0

/-- `strconv.Atoi`, modelled for the inputs `IsBreakingChange` feeds it
(leading-digit runs from `extractMajorVersion`, whose parse error is
discarded): a nonempty digit string evaluates to its value clamped to
`MaxInt64` (Go returns the clamped maximum on range errors), anything else
to 0. -/
def goAtoi (s : String) : Int :=
  if s ≠ "" ∧ s.toList.all Char.isDigit then
    min (digitsToNat s) ((2 : Int) ^ 63 - 1)
  else 0

/-- `IsBreakingChange` (severity.go): heuristic breaking-change predicate. -/
def IsBreakingChange (c : Change) : Bool :=
  if c.kind = .removed ∧
      (goContains c.path ".environment." ∨ goContains c.path ".ports." ∨
       goContains c.path ".volumes." ∨ goContains c.path ".depends_on." ∨
       goContains c.path ".healthcheck" ∨ c.scope = .service ∨ c.scope = .volume) then
    true
  else if goHasSuffix c.path ".image" ∧ c.kind = .modified then
    match c.before, c.after with
    | .str before, .str after =>
      let oldMajor := extractMajorVersion (extractTag before)
      let newMajor := extractMajorVersion (extractTag after)
      if oldMajor ≠ "" ∧ newMajor ≠ "" ∧ goAtoi newMajor < goAtoi oldMajor then true
      else false
    | _, _ => false
  else false

/-! ## The structural differ: diff package (part_002) -/

/-- `compareEnv` (diff/compare.go): reconcile environment maps by key.
Added keys, then removed keys (severity pre-seeded breaking), then common
keys whose dereferenced values differ (modified, warning). -/
def compareEnv (svcName basePath : String)
    (old new : List (String × Option String)) : List Change :=
  let (added, removed, common) := diffSets (envKeys old) (envKeys new)
  added.map (fun key =>
    { kind := .added, scope := .service, name := svcName,
      path := basePath ++ ".environment." ++ key,
      before := .null, after := ptrValue (envGet new key),
      severity := severityInfo })
  ++ removed.map (fun key =>
    { kind := .removed, scope := .service, name := svcName,
      path := basePath ++ ".environment." ++ key,
      before := ptrValue (envGet old key), after := .null,
      severity := severityBreaking })
  ++ (common.filter (fun key =>
        decide (ptrValue (envGet old key) ≠ ptrValue (envGet new key)))).map
      (fun key =>
    { kind := .modified, scope := .service, name := svcName,
      path := basePath ++ ".environment." ++ key,
      before := ptrValue (envGet old key), after := ptrValue (envGet new key),
      severity := severityWarning })

/-- `comparePorts` (diff/compare.go): reconcile port bindings by the
synthetic key `hostPort:containerPort/protocol`. -/
def comparePorts (svcName basePath : String)
    (old new : List PortIR) : List Change :=
  let oldMap := portMap old
  let newMap := portMap new
  let (added, removed, common) := diffSets (mapKeys oldMap) (mapKeys newMap)
  added.map (fun key =>
    { kind := .added, scope := .service, name := svcName,
      path := basePath ++ ".ports." ++ key,
      before := .null, after := .port (mapGet newMap key),
      severity := severityInfo })
  ++ removed.map (fun key =>
    { kind := .removed, scope := .service, name := svcName,
      path := basePath ++ ".ports." ++ key,
      before := .port (mapGet oldMap key), after := .null,
      severity := severityBreaking })
  ++ (common.filter (fun key =>
        decide (mapGet oldMap key ≠ mapGet newMap key))).map (fun key =>
    { kind := .modified, scope := .service, name := svcName,
      path := basePath ++ ".ports." ++ key,
      before := .port (mapGet oldMap key), after := .port (mapGet newMap key),
      severity := severityWarning })

/-- `compareServiceVolumes` (diff/compare.go): reconcile mounts by target. -/
def compareServiceVolumes (svcName basePath : String)
    (old new : List MountIR) : List Change :=
  let oldMap := mountMap old
  let newMap := mountMap new
  let (added, removed, common) := diffSets (mapKeys oldMap) (mapKeys newMap)
  added.map (fun key =>
    { kind := .added, scope := .service, name := svcName,
      path := basePath ++ ".volumes." ++ key,
      before := .null, after := .mount (mapGet newMap key),
      severity := severityInfo })
  ++ removed.map (fun key =>
    { kind := .removed, scope := .service, name := svcName,
      path := basePath ++ ".volumes." ++ key,
      before := .mount (mapGet oldMap key), after := .null,
      severity := severityBreaking })
  ++ (common.filter (fun key =>
        decide (mapGet oldMap key ≠ mapGet newMap key))).map (fun key =>
    { kind := .modified, scope := .service, name := svcName,
      path := basePath ++ ".volumes." ++ key,
      before := .mount (mapGet oldMap key), after := .mount (mapGet newMap key),
      severity := severityWarning })

/-- `compareStringSlice` (diff/compare.go): diff string lists as sets;
additions are `info`, removals take the severity argument. -/
def compareStringSlice (svcName path : String)
    (old new : List String) (severity : String) : List Change :=
  let (added, removed, _) := diffSets old new
  added.map (fun item =>
    { kind := .added, scope := .service, name := svcName,
      path := path ++ "." ++ item,
      before := .null, after := .str item,
      severity := severityInfo })
  ++ removed.map (fun item =>
    { kind := .removed, scope := .service, name := svcName,
      path := path ++ "." ++ item,
      before := .str item, after := .null,
      severity := severity })

/-- `compareService` (diff/compare.go): field-level comparison of a service
present in both trees, in source order (image, environment, ports, volumes,
networks, depends_on, healthcheck, command, entrypoint, restart). -/
def compareService (name : String) (old new : ServiceIR) : List Change :=
  let basePath := "services." ++ name
  (if !ptrEqual old.image new.image then
    [{ kind := .modified, scope := .service, name := name,
       path := basePath ++ ".image",
       before := ptrValue old.image, after := ptrValue new.image,
       severity := imageSeverity old.image new.image }]
   else [])
  ++ compareEnv name basePath old.env new.env
  ++ comparePorts name basePath old.ports new.ports
  ++ compareServiceVolumes name basePath old.volumes new.volumes
  ++ compareStringSlice name (basePath ++ ".networks") old.networks new.networks
       severityInfo
  ++ compareStringSlice name (basePath ++ ".depends_on") old.dependsOn new.dependsOn
       severityWarning
  ++ (if !healthcheckEqual old.healthcheck new.healthcheck then
      [{ kind := changeKindForPtrs old.healthcheck new.healthcheck,
         scope := .service, name := name,
         path := basePath ++ ".healthcheck",
         before := healthValue old.healthcheck, after := healthValue new.healthcheck,
         severity :=
           if old.healthcheck.isSome ∧ new.healthcheck.isNone then severityBreaking
           else severityInfo }]
    else [])
  ++ (if !sliceEqual old.command new.command then
      [{ kind := .modified, scope := .service, name := name,
         path := basePath ++ ".command",
         before := .strList old.command, after := .strList new.command,
         severity := severityInfo }]
    else [])
  ++ (if !sliceEqual old.entrypoint new.entrypoint then
      [{ kind := .modified, scope := .service, name := name,
         path := basePath ++ ".entrypoint",
         before := .strList old.entrypoint, after := .strList new.entrypoint,
         severity := severityWarning }]
    else [])
  ++ (if !ptrEqual old.restart new.restart then
      [{ kind := .modified, scope := .service, name := name,
         path := basePath ++ ".restart",
         before := ptrValue old.restart, after := ptrValue new.restart,
         severity := severityInfo }]
    else [])

/-- The entity-level `added` change for a service (compareServices). -/
def serviceAddedChange (new : List (String × ServiceIR)) (name : String) : Change :=
  { kind := .added, scope := .service, name := name,
    path := "services." ++ name,
    before := .null, after := .svc (mapGet new name),
    severity := severityInfo }

/-- The entity-level `removed` change for a service (compareServices);
severity pre-seeded `breaking`. -/
def serviceRemovedChange (old : List (String × ServiceIR)) (name : String) : Change :=
  { kind := .removed, scope := .service, name := name,
    path := "services." ++ name,
    before := .svc (mapGet old name), after := .null,
    severity := severityBreaking }

/-- The per-common-service step of `compareServices`: add the service's
field-level changes and bump the changed-services counter when nonempty. -/
def compareCommonStep (old new : List (String × ServiceIR))
    (acc : DiffReport × Nat) (name : String) : DiffReport × Nat :=
  let changes := compareService name (mapGet old name) (mapGet new name)
  if changes.length > 0 then (changes.foldl addChange acc.1, acc.2 + 1)
  else acc

/-- `compareServices` (diff/compare.go): entity-level reconciliation of the
service maps, plus field-level comparison of common services; updates the
report's per-scope counters. -/
def compareServices (old new : List (String × ServiceIR))
    (report : DiffReport) : DiffReport :=
  let (added, removed, common) := diffSets (mapKeys old) (mapKeys new)
  let report :=
    { report with summary :=
      { report.summary with servicesAdded := added.length,
                            servicesRemoved := removed.length } }
  let report := added.foldl (fun r name =>
    addChange r (serviceAddedChange new name)) report
  let report := removed.foldl (fun r name =>
    addChange r (serviceRemovedChange old name)) report
  let acc := common.foldl (compareCommonStep old new) (report, 0)
  { acc.1 with summary := { acc.1.summary with servicesChanged := acc.2 } }

/-- The entity-level `added` change for a top-level volume. -/
def volumeAddedChange (new : List (String × VolumeIR)) (name : String) : Change :=
  { kind := .added, scope := .volume, name := name,
    path := "volumes." ++ name,
    before := .null, after := .vol (mapGet new name),
    severity := severityInfo }

/-- The entity-level `removed` change for a top-level volume; severity
pre-seeded `breaking`. -/
def volumeRemovedChange (old : List (String × VolumeIR)) (name : String) : Change :=
  { kind := .removed, scope := .volume, name := name,
    path := "volumes." ++ name,
    before := .vol (mapGet old name), after := .null,
    severity := severityBreaking }

/-- `compareVolumes` (diff/compare.go): entity-level reconciliation of the
top-level volume maps; removals are pre-seeded `breaking`. -/
def compareVolumes (old new : List (String × VolumeIR))
    (report : DiffReport) : DiffReport :=
  let (added, removed, _) := diffSets (mapKeys old) (mapKeys new)
  let report :=
    { report with summary :=
      { report.summary with volumesAdded := added.length,
                            volumesRemoved := removed.length } }
  let report := added.foldl (fun r name =>
    addChange r (volumeAddedChange new name)) report
  removed.foldl (fun r name =>
    addChange r (volumeRemovedChange old name)) report

/-- The entity-level `added` change for a top-level network. -/
def networkAddedChange (new : List (String × NetworkIR)) (name : String) : Change :=
  { kind := .added, scope := .network, name := name,
    path := "networks." ++ name,
    before := .null, after := .net (mapGet new name),
    severity := severityInfo }

/-- The entity-level `removed` change for a top-level network; the source
seeds severity `warning` here (not `breaking`). -/
def networkRemovedChange (old : List (String × NetworkIR)) (name : String) : Change :=
  { kind := .removed, scope := .network, name := name,
    path := "networks." ++ name,
    before := .net (mapGet old name), after := .null,
    severity := severityWarning }

/-- `compareNetworks` (diff/compare.go): entity-level reconciliation of the
top-level network maps; removals carry severity `warning` in the source. -/
def compareNetworks (old new : List (String × NetworkIR))
    (report : DiffReport) : DiffReport :=
  let (added, removed, _) := diffSets (mapKeys old) (mapKeys new)
  let report :=
    { report with summary :=
      { report.summary with networksAdded := added.length,
                            networksRemoved := removed.length } }
  let report := added.foldl (fun r name =>
    addChange r (networkAddedChange new name)) report
  removed.foldl (fun r name =>
    addChange r (networkRemovedChange old name)) report

/-- `Compare` (diff/compare.go): full diff of two configuration trees. -/
def Compare (old new : ComposeIR) : DiffReport :=
  compareNetworks old.networks new.networks
    (compareVolumes old.volumes new.volumes
      (compareServices old.services new.services newDiffReport))

/-- `FilterByService` (diff/compare.go): keep only one service's changes;
the summary is copied from the input report unchanged. -/
def FilterByService (report : DiffReport) (service : String) : DiffReport :=
  { summary := report.summary,
    changes := report.changes.filter (fun c =>
      decide (c.scope = .service ∧ c.name = service)) }

/-- `FilterBySeverity` (diff/compare.go): keep changes at or above a level;
the summary is copied from the input report unchanged. -/
def FilterBySeverity (report : DiffReport) (minSeverity : String) : DiffReport :=
  let minLevel := SeverityLevel (ParseSeverity minSeverity)
  { summary := report.summary,
    changes := report.changes.filter (fun c =>
      decide (minLevel ≤ SeverityLevel c.severity)) }

/-! ## Normalizer: `internal/parser/normalizer.go`

The Go source sorts with `sort.Slice` and a strict comparator; the embedding
uses `List.insertionSort` with the comparator's non-strict closure (a
deterministic sort that agrees with the source on slices without ties). -/

/-- The non-strict closure of `normalizePorts`' comparator: by container
port, then host port (byte-lexicographic string comparison). -/
def lePort (p q : PortIR) : Prop :=
  p.containerPort.data < q.containerPort.data ∨
    (p.containerPort.data = q.containerPort.data ∧ p.hostPort.data ≤ q.hostPort.data)

instance : DecidableRel lePort := fun p q => by
  unfold lePort; infer_instance

instance : IsTotal PortIR lePort := by
  constructor
  intro p q
  rcases lt_trichotomy p.containerPort.data q.containerPort.data with h | h | h
  · exact Or.inl (Or.inl h)
  · rcases le_total p.hostPort.data q.hostPort.data with h' | h'
    · exact Or.inl (Or.inr ⟨h, h'⟩)
    · exact Or.inr (Or.inr ⟨h.symm, h'⟩)
  · exact Or.inr (Or.inl h)

instance : IsTrans PortIR lePort := by
  constructor
  intro a b c hab hbc
  rcases hab with hab | ⟨hab, hab'⟩
  · rcases hbc with hbc | ⟨hbc, _⟩
    · exact Or.inl (hab.trans hbc)
    · exact Or.inl (hbc ▸ hab)
  · rcases hbc with hbc | ⟨hbc, hbc'⟩
    · exact Or.inl (hab ▸ hbc)
    · exact Or.inr ⟨hab.trans hbc, hab'.trans hbc'⟩

/-- The non-strict closure of `normalizeVolumes`' comparator: by target. -/
def leMount (m n : MountIR) : Prop := m.target.data ≤ n.target.data

instance : DecidableRel leMount := fun m n => by
  unfold leMount; infer_instance

instance : IsTotal MountIR leMount :=
  ⟨fun m n => le_total m.target.data n.target.data⟩

instance : IsTrans MountIR leMount :=
  ⟨fun _ _ _ h h' => le_trans h h'⟩

/-- `sortedStrings` (normalizer.go): a sorted copy of a string list. -/
def sortedStrings (s : List String) : List String :=
  sortStrings s

/-- `normalizePorts` (normalizer.go): sort by (container port, host port). -/
def normalizePorts (ports : List PortIR) : List PortIR :=
  ports.insertionSort lePort

/-- `normalizeVolumes` (normalizer.go): sort mounts by target path. -/
def normalizeVolumes (volumes : List MountIR) : List MountIR :=
  volumes.insertionSort leMount

/-- `normalizeService` (normalizer.go): sort the order-insensitive list
fields, copy everything else. -/
def normalizeService (svc : ServiceIR) : ServiceIR :=
  { image := svc.image
    build := svc.build
    env := svc.env
    envFiles := sortedStrings svc.envFiles
    ports := normalizePorts svc.ports
    volumes := normalizeVolumes svc.volumes
    networks := sortedStrings svc.networks
    dependsOn := sortedStrings svc.dependsOn
    healthcheck := svc.healthcheck
    command := svc.command
    entrypoint := svc.entrypoint
    profiles := sortedStrings svc.profiles
    restart := svc.restart
    labels := svc.labels }

/-- `Normalize` (normalizer.go): normalize every service; volumes and
networks are copied as-is. -/
def Normalize (ir : ComposeIR) : ComposeIR :=
  { services := ir.services.map (fun p => (p.1, normalizeService p.2))
    volumes := ir.volumes
    networks := ir.networks }

/-! ## Port-string parsing: `parsePortString` (parser/compose.go, part_000) -/

/-- Drop the last `n` characters of a rune list (Go `strings.TrimSuffix`
after a successful `HasSuffix` check). -/
def dropSuffixChars (l : List Char) (n : Nat) : List Char :=
  l.take (l.length - n)

/-- `parsePortString` (parser): parse a short-form port string such as
`"8080:80"` or `"127.0.0.1:8080:80/udp"`; the protocol defaults to `tcp`.
The Go function's error result is always `nil`, and a `switch` fallthrough
leaves the zero value in place for a malformed count of `:` segments. -/
def parsePortString (s : String) : PortIR :=
  let l := s.toList
  let (protocol, l) :=
    if goHasSuffix s "/udp" then ("udp", dropSuffixChars l 4)
    else if goHasSuffix s "/tcp" then ("tcp", dropSuffixChars l 4)
    else ("tcp", l)
  let parts := splitOnChar ':' l
  match parts with
  | [c] => { hostIP := "", hostPort := "", containerPort := String.mk c,
             protocol := protocol }
  | [h, c] => { hostIP := "", hostPort := String.mk h,
                containerPort := String.mk c, protocol := protocol }
  | [ip, h, c] => { hostIP := String.mk ip, hostPort := String.mk h,
                    containerPort := String.mk c, protocol := protocol }
  | _ => { hostIP := "", hostPort := "", containerPort := "",
           protocol := protocol }

/-! ## A regular-expression model for the stdlib `regexp` calls

The rule engine compiles patterns with Go's `regexp` package.  The model
below covers the fragment the rule patterns exercise: literal characters,
`\`-escapes, `.`, and the postfix repetitions `*`, `+`, `?`.  Patterns using
other metacharacters (classes, groups, alternation, anchors in the middle)
are treated as failing to compile.  Matching is by Brzozowski derivatives;
`rmatch` decides full-string membership, `regexSearch` models the
unanchored `MatchString`. -/

/-- Regular expressions over characters. -/
inductive Regex where
  | emp
  | eps
  | chr (c : Char)
  | any
  | alt (a b : Regex)
  | seq (a b : Regex)
  | star (a : Regex)
deriving DecidableEq, Inhabited

/-- Does the regex accept the empty string? -/
def Regex.nullable : Regex → Bool
  | .emp => false
  | .eps => true
  | .chr _ => false
  | .any => false
  | .alt a b => a.nullable || b.nullable
  | .seq a b => a.nullable && b.nullable
  | .star _ => true

/-- Brzozowski derivative with respect to one character. -/
def Regex.deriv : Regex → Char → Regex
  | .emp, _ => .emp
  | .eps, _ => .emp
  | .chr c, d => if c = d then .eps else .emp
  | .any, _ => .eps
  | .alt a b, d => .alt (a.deriv d) (b.deriv d)
  | .seq a b, d =>
    if a.nullable then .alt (.seq (a.deriv d) b) (b.deriv d)
    else .seq (a.deriv d) b
  | .star a, d => .seq (a.deriv d) (.star a)

/-- Full-string regex matching by repeated derivatives. -/
def rmatch : Regex → List Char → Bool
  | r, [] => r.nullable
  | r, c :: s => rmatch (r.deriv c) s

/-- The language of a regex, as an inductive predicate. -/
inductive RLang : Regex → List Char → Prop where
  | eps : RLang .eps []
  | chr {c : Char} : RLang (.chr c) [c]
  | any {c : Char} : RLang .any [c]
  | altL {a b : Regex} {s : List Char} : RLang a s → RLang (.alt a b) s
  | altR {a b : Regex} {s : List Char} : RLang b s → RLang (.alt a b) s
  | seq {a b : Regex} {s t : List Char} :
      RLang a s → RLang b t → RLang (.seq a b) (s ++ t)
  | starNil {a : Regex} : RLang (.star a) []
  | starCons {a : Regex} {s t : List Char} :
      RLang a s → RLang (.star a) t → RLang (.star a) (s ++ t)

/-- Regex metacharacters outside the modelled fragment. -/
def unsupportedMeta : List Char := ['(', ')', '[', ']', '{', '}', '|', '^', '$']

/-- Parse a pattern into a list of atoms (accumulator is reversed); postfix
`*`, `+`, `?` wrap the previous atom; unsupported metacharacters and a
dangling `\` fail, modelling a `regexp.Compile` error. -/
def parseRegexAux : List Char → List Regex → Option (List Regex)
  | [], acc => some acc.reverse
  | c :: rest, acc =>
    if c = '\\' then
      match rest with
      | [] => none
      | d :: rest' => parseRegexAux rest' (.chr d :: acc)
    else if c = '.' then parseRegexAux rest (.any :: acc)
    else if c = '*' then
      match acc with
      | [] => none
      | a :: acc' => parseRegexAux rest (.star a :: acc')
    else if c = '+' then
      match acc with
      | [] => none
      | a :: acc' => parseRegexAux rest (.seq a (.star a) :: acc')
    else if c = '?' then
      match acc with
      | [] => none
      | a :: acc' => parseRegexAux rest (.alt .eps a :: acc')
    else if c ∈ unsupportedMeta then none
    else parseRegexAux rest (.chr c :: acc)

/-- `regexp.Compile` model: parse a pattern into one sequential regex.
This under-approximates the set of patterns Go's compiler accepts: RE2-valid
syntax outside the modelled fragment (groups, alternation, classes,
counted repetition, anchors) is reported as a compile failure here.  It
coincides with `regexp.Compile` on the literal-glob fragment (all that
`matchGlob` produces for such patterns) and on the plain-text/escape/`.`/
repetition fragment; theorems about *load errors* therefore quantify over
an arbitrary compiler instead of relying on this model's failure set. -/
def parseRegex (s : String) : Option Regex :=
  (parseRegexAux s.toList []).map (fun atoms => atoms.foldr Regex.seq .eps)

/-- `Regexp.MatchString` model: does any substring match? -/
def regexSearch (r : Regex) (s : String) : Bool :=
  s.toList.tails.any (fun t => t.inits.any (fun u => rmatch r u))

/-! ## The rule engine: rules package (ir.go, part 3) and `applyRules` -/

/-- `SeverityRule` (rules/rules.go). -/
structure SeverityRule where
  pattern : String
  severity : String
  isRegex : Bool
deriving DecidableEq, Inhabited

/-- `IgnoreRule` (rules/rules.go). -/
structure IgnoreRule where
  pattern : String
  isRegex : Bool
  reason : String
deriving DecidableEq, Inhabited

/-- `ServiceIgnoreRules` (rules/rules.go). -/
structure ServiceIgnoreRules where
  paths : List String
  fields : List String
deriving DecidableEq, Inhabited

/-- `RulesConfig` (rules/rules.go); maps are association lists. -/
structure RulesConfig where
  version : String
  severityOverrides : List SeverityRule
  ignorePatterns : List IgnoreRule
  serviceIgnores : List (String × ServiceIgnoreRules)
  categories : List (String × List String)
deriving DecidableEq, Inhabited

/-- `compiledSeverity` (rules/rules.go). -/
structure CompiledSeverity where
  pattern : Option Regex
  literal : String
  severity : String
  isRegex : Bool
deriving DecidableEq, Inhabited

/-- `compiledIgnore` (rules/rules.go). -/
structure CompiledIgnore where
  pattern : Option Regex
  literal : String
  isRegex : Bool
  reason : String
deriving DecidableEq, Inhabited

/-- `Rules` (rules/rules.go): the loaded rule set. -/
structure Rules where
  config : RulesConfig
  severityPatterns : List CompiledSeverity
  ignorePatterns : List CompiledIgnore
deriving DecidableEq, Inhabited

/-- The per-character rewriting done by `matchGlob`'s two `ReplaceAll`
calls: escape `.`, turn `*` into `.*` (both replacements operate on single
characters, so they amount to this character-wise map). -/
def globTranslate (c : Char) : List Char :=
  if c = '.' then ['\\', '.'] else if c = '*' then ['.', '*'] else [c]

/-- The pattern text after `matchGlob`'s replacements, before anchoring. -/
def globBody (p : List Char) : List Char :=
  p.foldr (fun c acc => globTranslate c ++ acc) []

/-- `matchGlob` (rules/rules.go): escape `.`, turn `*` into `.*`, anchor with
`^`/`$`, and run the resulting regular expression; if it fails to compile,
fall back to comparing the mutated pattern text with the string.  The
anchors make `MatchString` equivalent to the full-string `rmatch`. -/
def matchGlob (pattern str : String) : Bool :=
  match parseRegex (String.mk (globBody pattern.toList)) with
  | some re => rmatch re str.toList
  | none => String.mk ('^' :: globBody pattern.toList ++ ['$']) == str

/-- Compile one severity rule (`compileRules` loop body); `rc` stands for
the external `regexp.Compile`. -/
def compileSeverityRule (rc : String → Option Regex)
    (sr : SeverityRule) : Option CompiledSeverity :=
  if sr.isRegex then
    (rc sr.pattern).map (fun re =>
      { pattern := some re, literal := "", severity := sr.severity,
        isRegex := true })
  else
    some { pattern := none, literal := sr.pattern, severity := sr.severity,
           isRegex := false }

/-- Compile one ignore rule (`compileRules` loop body); `rc` stands for the
external `regexp.Compile`. -/
def compileIgnoreRule (rc : String → Option Regex)
    (ir : IgnoreRule) : Option CompiledIgnore :=
  if ir.isRegex then
    (rc ir.pattern).map (fun re =>
      { pattern := some re, literal := "", isRegex := true,
        reason := ir.reason })
  else
    some { pattern := none, literal := ir.pattern, isRegex := false,
           reason := ir.reason }

/-- Sequence a list of fallible steps, stopping at the first failure
(the `for` loops of `compileRules` returning the first error). -/
def mapOpt {α β : Type} (f : α → Option β) : List α → Option (List β)
  | [] => some []
  | a :: l =>
    match f a with
    | none => none
    | some b => (mapOpt f l).map (fun bs => b :: bs)

/-- `compileRules` (rules/rules.go), parameterized by the stdlib regex
compiler `rc`: compile severity overrides, then ignore patterns; the only
failure source is `rc` rejecting a regex-mode pattern.  The severity
strings are not validated. -/
def compileRulesWith (rc : String → Option Regex)
    (config : RulesConfig) : Option Rules :=
  match mapOpt (compileSeverityRule rc) config.severityOverrides with
  | none => none
  | some sevs =>
    match mapOpt (compileIgnoreRule rc) config.ignorePatterns with
    | none => none
    | some igns =>
      some { config := config, severityPatterns := sevs, ignorePatterns := igns }

/-- `compileRules` instantiated at the executable (partial) model of
`regexp.Compile`. -/
def compileRules (config : RulesConfig) : Option Rules :=
  compileRulesWith parseRegex config

/-- Does one compiled severity rule match a path? -/
def severityRuleMatches (sp : CompiledSeverity) (path : String) : Bool :=
  if sp.isRegex then
    match sp.pattern with
    | some re => regexSearch re path
    | none => false
  else matchGlob sp.literal path

/-- `Rules.GetSeverityOverride` (rules/rules.go): first matching override's
severity string, returned verbatim. -/
def GetSeverityOverride (r : Rules) (path : String) : Option String :=
  (r.severityPatterns.find? (fun sp => severityRuleMatches sp path)).map
    (fun sp => sp.severity)

/-- Does one compiled ignore rule match a path? -/
def ignoreRuleMatches (ip : CompiledIgnore) (path : String) : Bool :=
  if ip.isRegex then
    match ip.pattern with
    | some re => regexSearch re path
    | none => false
  else matchGlob ip.literal path

/-- `Rules.ShouldIgnore` (rules/rules.go): whether the path matches an
ignore pattern, with the first match's reason. -/
def ShouldIgnore (r : Rules) (path : String) : Bool × String :=
  match r.ignorePatterns.find? (fun ip => ignoreRuleMatches ip path) with
  | some ip => (true, ip.reason)
  | none => (false, "")

/-- `Rules.ShouldIgnoreServiceField` (rules/rules.go). -/
def ShouldIgnoreServiceField (r : Rules) (service field : String) : Bool :=
  match r.config.serviceIgnores.lookup service with
  | none => false
  | some si =>
    si.fields.contains field || si.paths.any (fun p => matchGlob p field)

/-- `splitPath` (cmd/root.go): split a dotted path, dropping empty parts. -/
def splitPath (path : String) : List String :=
  (splitOnChar '.' path.toList).filterMap (fun part =>
    if part.isEmpty then none else some (String.mk part))

/-- `extractFieldFromPath` (cmd/root.go): the third path segment, if any. -/
def extractFieldFromPath (path : String) : String :=
  let parts := splitPath path
  if parts.length ≥ 3 then parts.getD 2 "" else ""

/-- The loop body of `applyRules` (cmd/root.go): drop ignored changes, apply
the first matching severity override, and count retained changes per
severity bucket (`default` counts as info). -/
def applyRulesLoop (r : Rules) : List Change → List Change × Nat × Nat × Nat
  | [] => ([], 0, 0, 0)
  | c :: rest =>
    if (ShouldIgnore r c.path).1 then applyRulesLoop r rest
    else if ShouldIgnoreServiceField r c.name (extractFieldFromPath c.path) then
      applyRulesLoop r rest
    else
      let c :=
        match GetSeverityOverride r c.path with
        | some severity => { c with severity := severity }
        | none => c
      let (fs, b, w, i) := applyRulesLoop r rest
      (c :: fs,
       (if c.severity = severityBreaking then b + 1 else b),
       (if c.severity = severityWarning then w + 1 else w),
       (if c.severity ≠ severityBreaking ∧ c.severity ≠ severityWarning then i + 1 else i))

/-- `applyRules` (cmd/root.go): filter and re-score the changes, then set
`TotalChanges` to the retained length and the severity counters to the
recounted values; the per-scope counters are left as they were. -/
def applyRules (report : DiffReport) (r : Rules) : DiffReport :=
  let (filtered, breakingCount, warningCount, infoCount) :=
    applyRulesLoop r report.changes
  { summary :=
    { report.summary with
      totalChanges := filtered.length,
      breakingCount := breakingCount,
      warningCount := warningCount,
      infoCount := infoCount },
    changes := filtered }

/-! ## Groundwork lemmas -/

theorem mem_sortStrings {a : String} {l : List String} :
    a ∈ sortStrings l ↔ a ∈ l := by
  unfold sortStrings
  exact (List.perm_insertionSort strLe l).mem_iff

theorem count_sortStrings (a : String) (l : List String) :
    (sortStrings l).count a = l.count a :=
  (List.perm_insertionSort strLe l).count_eq a

theorem nodup_sortStrings {l : List String} (h : l.Nodup) :
    (sortStrings l).Nodup :=
  ((List.perm_insertionSort strLe l).nodup_iff).mpr h

theorem mem_diffSets_added {a : String} {old new : List String} :
    a ∈ (diffSets old new).1 ↔ a ∈ new ∧ a ∉ old := by
  simp [diffSets, mem_sortStrings, List.mem_filter]

theorem mem_diffSets_removed {a : String} {old new : List String} :
    a ∈ (diffSets old new).2.1 ↔ a ∈ old ∧ a ∉ new := by
  simp [diffSets, mem_sortStrings, List.mem_filter]

theorem mem_diffSets_common {a : String} {old new : List String} :
    a ∈ (diffSets old new).2.2 ↔ a ∈ old ∧ a ∈ new := by
  simp [diffSets, mem_sortStrings, List.mem_filter]

theorem nodup_diffSets_added (old new : List String) :
    (diffSets old new).1.Nodup :=
  nodup_sortStrings (List.Nodup.filter _ new.nodup_dedup)

theorem nodup_diffSets_removed (old new : List String) :
    (diffSets old new).2.1.Nodup :=
  nodup_sortStrings (List.Nodup.filter _ old.nodup_dedup)

theorem count_eq_one_of_nodup_mem {a : String} {l : List String}
    (hn : l.Nodup) (ha : a ∈ l) : l.count a = 1 :=
  List.count_eq_one_of_mem hn ha

theorem addChange_changes (r : DiffReport) (c : Change) :
    (addChange r c).changes = r.changes ++ [c] := by
  simp [addChange]

theorem foldl_addChange_changes (l : List Change) (r : DiffReport) :
    (l.foldl addChange r).changes = r.changes ++ l := by
  induction l generalizing r with
  | nil => simp
  | cons c l ih => simp [ih, addChange_changes]

theorem foldl_addChange_map_changes {α : Type} (f : α → Change)
    (l : List α) (r : DiffReport) :
    (l.foldl (fun r a => addChange r (f a)) r).changes = r.changes ++ l.map f := by
  induction l generalizing r with
  | nil => simp
  | cons a l ih => simp [ih, addChange_changes]

theorem compareCommonStep_changes (old new : List (String × ServiceIR))
    (acc : DiffReport × Nat) (name : String) :
    (compareCommonStep old new acc name).1.changes =
      acc.1.changes ++ compareService name (mapGet old name) (mapGet new name) := by
  simp only [compareCommonStep]
  split
  · exact foldl_addChange_changes _ _
  · next h =>
    have hnil : compareService name (mapGet old name) (mapGet new name) = [] :=
      List.eq_nil_of_length_eq_zero (by omega)
    simp [hnil]

theorem foldl_compareCommonStep_changes (old new : List (String × ServiceIR))
    (common : List String) (acc : DiffReport × Nat) :
    (common.foldl (compareCommonStep old new) acc).1.changes =
      acc.1.changes ++ common.flatMap (fun name =>
        compareService name (mapGet old name) (mapGet new name)) := by
  induction common generalizing acc with
  | nil => simp
  | cons name common ih =>
    rw [List.foldl_cons, ih, List.flatMap_cons, compareCommonStep_changes,
      List.append_assoc]

/-- The changes `compareServices` appends: entity adds, entity removes, then
field-level changes of common services. -/
def servicesChangeList (old new : List (String × ServiceIR)) : List Change :=
  (diffSets (mapKeys old) (mapKeys new)).1.map (serviceAddedChange new)
  ++ (diffSets (mapKeys old) (mapKeys new)).2.1.map (serviceRemovedChange old)
  ++ (diffSets (mapKeys old) (mapKeys new)).2.2.flatMap (fun name =>
      compareService name (mapGet old name) (mapGet new name))

theorem compareServices_changes (old new : List (String × ServiceIR))
    (report : DiffReport) :
    (compareServices old new report).changes =
      report.changes ++ servicesChangeList old new := by
  simp only [compareServices, servicesChangeList]
  rw [foldl_compareCommonStep_changes, foldl_addChange_map_changes,
    foldl_addChange_map_changes]
  simp [List.append_assoc]

/-- The changes `compareVolumes` appends. -/
def volumesChangeList (old new : List (String × VolumeIR)) : List Change :=
  (diffSets (mapKeys old) (mapKeys new)).1.map (volumeAddedChange new)
  ++ (diffSets (mapKeys old) (mapKeys new)).2.1.map (volumeRemovedChange old)

theorem compareVolumes_changes (old new : List (String × VolumeIR))
    (report : DiffReport) :
    (compareVolumes old new report).changes =
      report.changes ++ volumesChangeList old new := by
  simp only [compareVolumes, volumesChangeList]
  rw [foldl_addChange_map_changes, foldl_addChange_map_changes]
  simp [List.append_assoc]

/-- The changes `compareNetworks` appends. -/
def networksChangeList (old new : List (String × NetworkIR)) : List Change :=
  (diffSets (mapKeys old) (mapKeys new)).1.map (networkAddedChange new)
  ++ (diffSets (mapKeys old) (mapKeys new)).2.1.map (networkRemovedChange old)

theorem compareNetworks_changes (old new : List (String × NetworkIR))
    (report : DiffReport) :
    (compareNetworks old new report).changes =
      report.changes ++ networksChangeList old new := by
  simp only [compareNetworks, networksChangeList]
  rw [foldl_addChange_map_changes, foldl_addChange_map_changes]
  simp [List.append_assoc]

theorem Compare_changes (old new : ComposeIR) :
    (Compare old new).changes =
      servicesChangeList old.services new.services
      ++ volumesChangeList old.volumes new.volumes
      ++ networksChangeList old.networks new.networks := by
  simp only [Compare]
  rw [compareNetworks_changes, compareVolumes_changes, compareServices_changes]
  simp [newDiffReport, List.append_assoc]

/-! ### Shape of the changes each differ function emits -/

theorem compareEnv_scope_name {svcName basePath : String}
    {o w : List (String × Option String)} {c : Change}
    (hc : c ∈ compareEnv svcName basePath o w) :
    c.scope = .service ∧ c.name = svcName := by
  simp only [compareEnv, List.mem_append, List.mem_map, List.mem_filter] at hc
  rcases hc with (⟨k, _, rfl⟩ | ⟨k, _, rfl⟩) | ⟨k, _, rfl⟩ <;> exact ⟨rfl, rfl⟩

theorem comparePorts_scope_name {svcName basePath : String}
    {o w : List PortIR} {c : Change}
    (hc : c ∈ comparePorts svcName basePath o w) :
    c.scope = .service ∧ c.name = svcName := by
  simp only [comparePorts, List.mem_append, List.mem_map, List.mem_filter] at hc
  rcases hc with (⟨k, _, rfl⟩ | ⟨k, _, rfl⟩) | ⟨k, _, rfl⟩ <;> exact ⟨rfl, rfl⟩

theorem compareServiceVolumes_scope_name {svcName basePath : String}
    {o w : List MountIR} {c : Change}
    (hc : c ∈ compareServiceVolumes svcName basePath o w) :
    c.scope = .service ∧ c.name = svcName := by
  simp only [compareServiceVolumes, List.mem_append, List.mem_map,
    List.mem_filter] at hc
  rcases hc with (⟨k, _, rfl⟩ | ⟨k, _, rfl⟩) | ⟨k, _, rfl⟩ <;> exact ⟨rfl, rfl⟩

theorem compareStringSlice_scope_name {svcName path : String}
    {o w : List String} {severity : String} {c : Change}
    (hc : c ∈ compareStringSlice svcName path o w severity) :
    c.scope = .service ∧ c.name = svcName := by
  simp only [compareStringSlice, List.mem_append, List.mem_map] at hc
  rcases hc with ⟨k, _, rfl⟩ | ⟨k, _, rfl⟩ <;> exact ⟨rfl, rfl⟩

theorem mem_ite_singleton {b : Prop} [Decidable b] {x c : Change} :
    c ∈ (if b then [x] else ([] : List Change)) ↔ b ∧ c = x := by
  split <;> simp_all

theorem compareService_scope_name {name : String} {o w : ServiceIR} {c : Change}
    (hc : c ∈ compareService name o w) :
    c.scope = .service ∧ c.name = name := by
  simp only [compareService, List.mem_append] at hc
  rcases hc with ((((((((h | h) | h) | h) | h) | h) | h) | h) | h) | h
  · exact (mem_ite_singleton.mp h).2 ▸ ⟨rfl, rfl⟩
  · exact compareEnv_scope_name h
  · exact comparePorts_scope_name h
  · exact compareServiceVolumes_scope_name h
  · exact compareStringSlice_scope_name h
  · exact compareStringSlice_scope_name h
  · exact (mem_ite_singleton.mp h).2 ▸ ⟨rfl, rfl⟩
  · exact (mem_ite_singleton.mp h).2 ▸ ⟨rfl, rfl⟩
  · exact (mem_ite_singleton.mp h).2 ▸ ⟨rfl, rfl⟩
  · exact (mem_ite_singleton.mp h).2 ▸ ⟨rfl, rfl⟩

theorem servicesChangeList_scope {o w : List (String × ServiceIR)} :
    ∀ c ∈ servicesChangeList o w, c.scope = .service := by
  intro c hc
  simp only [servicesChangeList, List.mem_append, List.mem_map,
    List.mem_flatMap] at hc
  rcases hc with (⟨k, _, rfl⟩ | ⟨k, _, rfl⟩) | ⟨k, _, hk⟩
  · rfl
  · rfl
  · exact (compareService_scope_name hk).1

theorem volumesChangeList_scope {o w : List (String × VolumeIR)} :
    ∀ c ∈ volumesChangeList o w, c.scope = .volume := by
  intro c hc
  simp only [volumesChangeList, List.mem_append, List.mem_map] at hc
  rcases hc with ⟨k, _, rfl⟩ | ⟨k, _, rfl⟩ <;> rfl

theorem networksChangeList_scope {o w : List (String × NetworkIR)} :
    ∀ c ∈ networksChangeList o w, c.scope = .network := by
  intro c hc
  simp only [networksChangeList, List.mem_append, List.mem_map] at hc
  rcases hc with ⟨k, _, rfl⟩ | ⟨k, _, rfl⟩ <;> rfl

/-- The predicate "entity-level removal of `name` in scope `sc`". -/
def isEntityRemoval (sc : Scope) (name : String) (c : Change) : Prop :=
  c.scope = sc ∧ c.kind = .removed ∧ c.name = name

instance (sc : Scope) (name : String) : DecidablePred (isEntityRemoval sc name) :=
  fun c => by unfold isEntityRemoval; infer_instance

theorem countP_eq_zero_of_scope {l : List Change} {sc sc' : Scope}
    (hne : sc' ≠ sc) (hsc : ∀ c ∈ l, c.scope = sc') (name : String) :
    l.countP (fun c => decide (isEntityRemoval sc name c)) = 0 := by
  rw [List.countP_eq_zero]
  intro c hc
  simp only [decide_eq_true_eq, isEntityRemoval, not_and]
  intro h
  exact absurd (hsc c hc ▸ h) hne

theorem servicesChangeList_countP_removed
    {o w : List (String × ServiceIR)} {name : String}
    (h1 : name ∈ mapKeys o) (h2 : name ∉ mapKeys w) :
    (servicesChangeList o w).countP
      (fun c => decide (isEntityRemoval .service name c)) = 1 := by
  simp only [servicesChangeList, List.countP_append]
  have hadded : ((diffSets (mapKeys o) (mapKeys w)).1.map
      (serviceAddedChange w)).countP
      (fun c => decide (isEntityRemoval .service name c)) = 0 := by
    rw [List.countP_eq_zero]
    intro c hc
    simp only [List.mem_map] at hc
    rcases hc with ⟨k, _, rfl⟩
    simp [isEntityRemoval, serviceAddedChange]
  have hcommon : ((diffSets (mapKeys o) (mapKeys w)).2.2.flatMap (fun n =>
      compareService n (mapGet o n) (mapGet w n))).countP
      (fun c => decide (isEntityRemoval .service name c)) = 0 := by
    rw [List.countP_eq_zero]
    intro c hc
    simp only [List.mem_flatMap] at hc
    rcases hc with ⟨k, hk, hck⟩
    have hkmem := (mem_diffSets_common.mp hk).2
    have hname := (compareService_scope_name hck).2
    simp only [decide_eq_true_eq, isEntityRemoval, not_and]
    intro _ _ hn
    exact h2 ((hname.symm.trans hn) ▸ hkmem)
  have hremoved : ((diffSets (mapKeys o) (mapKeys w)).2.1.map
      (serviceRemovedChange o)).countP
      (fun c => decide (isEntityRemoval .service name c)) = 1 := by
    rw [List.countP_map]
    have hcongr : ∀ n ∈ (diffSets (mapKeys o) (mapKeys w)).2.1,
        (((fun c => decide (isEntityRemoval .service name c)) ∘
            serviceRemovedChange o) n = true ↔ (n == name) = true) := by
      intro n _
      simp [isEntityRemoval, serviceRemovedChange, Function.comp]
    calc ((diffSets (mapKeys o) (mapKeys w)).2.1.countP
            ((fun c => decide (isEntityRemoval .service name c)) ∘
              serviceRemovedChange o))
        = (diffSets (mapKeys o) (mapKeys w)).2.1.countP (fun n => n == name) :=
          List.countP_congr hcongr
      _ = 1 := by
          have hmem : name ∈ (diffSets (mapKeys o) (mapKeys w)).2.1 :=
            mem_diffSets_removed.mpr ⟨h1, h2⟩
          have hnd := nodup_diffSets_removed (mapKeys o) (mapKeys w)
          have := count_eq_one_of_nodup_mem hnd hmem
          simpa [List.count] using this
  omega

theorem servicesChangeList_removed_unique
    {o w : List (String × ServiceIR)} {name : String}
    (h2 : name ∉ mapKeys w) :
    ∀ c ∈ servicesChangeList o w, isEntityRemoval .service name c →
      c = serviceRemovedChange o name := by
  intro c hc hpred
  obtain ⟨hsc, hkind, hname⟩ := hpred
  simp only [servicesChangeList, List.mem_append, List.mem_map,
    List.mem_flatMap] at hc
  rcases hc with (⟨k, _, rfl⟩ | ⟨k, _, rfl⟩) | ⟨k, hk, hck⟩
  · simp [serviceAddedChange] at hkind
  · have : k = name := hname
    rw [this]
  · have hkmem := (mem_diffSets_common.mp hk).2
    have hck' := (compareService_scope_name hck).2
    exact absurd ((hck'.symm.trans hname) ▸ hkmem) h2

theorem volumesChangeList_countP_removed
    {o w : List (String × VolumeIR)} {name : String}
    (h1 : name ∈ mapKeys o) (h2 : name ∉ mapKeys w) :
    (volumesChangeList o w).countP
      (fun c => decide (isEntityRemoval .volume name c)) = 1 := by
  simp only [volumesChangeList, List.countP_append]
  have hadded : ((diffSets (mapKeys o) (mapKeys w)).1.map
      (volumeAddedChange w)).countP
      (fun c => decide (isEntityRemoval .volume name c)) = 0 := by
    rw [List.countP_eq_zero]
    intro c hc
    simp only [List.mem_map] at hc
    rcases hc with ⟨k, _, rfl⟩
    simp [isEntityRemoval, volumeAddedChange]
  have hremoved : ((diffSets (mapKeys o) (mapKeys w)).2.1.map
      (volumeRemovedChange o)).countP
      (fun c => decide (isEntityRemoval .volume name c)) = 1 := by
    rw [List.countP_map]
    have hcongr : ∀ n ∈ (diffSets (mapKeys o) (mapKeys w)).2.1,
        (((fun c => decide (isEntityRemoval .volume name c)) ∘
            volumeRemovedChange o) n = true ↔ (n == name) = true) := by
      intro n _
      simp [isEntityRemoval, volumeRemovedChange, Function.comp]
    calc ((diffSets (mapKeys o) (mapKeys w)).2.1.countP
            ((fun c => decide (isEntityRemoval .volume name c)) ∘
              volumeRemovedChange o))
        = (diffSets (mapKeys o) (mapKeys w)).2.1.countP (fun n => n == name) :=
          List.countP_congr hcongr
      _ = 1 := by
          have hmem : name ∈ (diffSets (mapKeys o) (mapKeys w)).2.1 :=
            mem_diffSets_removed.mpr ⟨h1, h2⟩
          have hnd := nodup_diffSets_removed (mapKeys o) (mapKeys w)
          have := count_eq_one_of_nodup_mem hnd hmem
          simpa [List.count] using this
  omega

theorem volumesChangeList_removed_unique
    {o w : List (String × VolumeIR)} {name : String} :
    ∀ c ∈ volumesChangeList o w, isEntityRemoval .volume name c →
      c = volumeRemovedChange o name := by
  intro c hc hpred
  obtain ⟨hsc, hkind, hname⟩ := hpred
  simp only [volumesChangeList, List.mem_append, List.mem_map] at hc
  rcases hc with ⟨k, _, rfl⟩ | ⟨k, _, rfl⟩
  · simp [volumeAddedChange] at hkind
  · have : k = name := hname
    rw [this]

theorem networksChangeList_countP_removed
    {o w : List (String × NetworkIR)} {name : String}
    (h1 : name ∈ mapKeys o) (h2 : name ∉ mapKeys w) :
    (networksChangeList o w).countP
      (fun c => decide (isEntityRemoval .network name c)) = 1 := by
  simp only [networksChangeList, List.countP_append]
  have hadded : ((diffSets (mapKeys o) (mapKeys w)).1.map
      (networkAddedChange w)).countP
      (fun c => decide (isEntityRemoval .network name c)) = 0 := by
    rw [List.countP_eq_zero]
    intro c hc
    simp only [List.mem_map] at hc
    rcases hc with ⟨k, _, rfl⟩
    simp [isEntityRemoval, networkAddedChange]
  have hremoved : ((diffSets (mapKeys o) (mapKeys w)).2.1.map
      (networkRemovedChange o)).countP
      (fun c => decide (isEntityRemoval .network name c)) = 1 := by
    rw [List.countP_map]
    have hcongr : ∀ n ∈ (diffSets (mapKeys o) (mapKeys w)).2.1,
        (((fun c => decide (isEntityRemoval .network name c)) ∘
            networkRemovedChange o) n = true ↔ (n == name) = true) := by
      intro n _
      simp [isEntityRemoval, networkRemovedChange, Function.comp]
    calc ((diffSets (mapKeys o) (mapKeys w)).2.1.countP
            ((fun c => decide (isEntityRemoval .network name c)) ∘
              networkRemovedChange o))
        = (diffSets (mapKeys o) (mapKeys w)).2.1.countP (fun n => n == name) :=
          List.countP_congr hcongr
      _ = 1 := by
          have hmem : name ∈ (diffSets (mapKeys o) (mapKeys w)).2.1 :=
            mem_diffSets_removed.mpr ⟨h1, h2⟩
          have hnd := nodup_diffSets_removed (mapKeys o) (mapKeys w)
          have := count_eq_one_of_nodup_mem hnd hmem
          simpa [List.count] using this
  omega

theorem networksChangeList_removed_unique
    {o w : List (String × NetworkIR)} {name : String} :
    ∀ c ∈ networksChangeList o w, isEntityRemoval .network name c →
      c = networkRemovedChange o name := by
  intro c hc hpred
  obtain ⟨hsc, hkind, hname⟩ := hpred
  simp only [networksChangeList, List.mem_append, List.mem_map] at hc
  rcases hc with ⟨k, _, rfl⟩ | ⟨k, _, rfl⟩
  · simp [networkAddedChange] at hkind
  · have : k = name := hname
    rw [this]

/-! ## Claim C1 -/

/-- C1 (corrected).  For every pair of trees and every entity name present in
the old tree but not the new one, `Compare` emits exactly one entity-level
`removed` Change in the corresponding scope.  Its severity is pre-seeded
`breaking` for services and volumes, but `warning` for networks (the claim's
"always breaking" fails there, see the counterexample). -/
theorem removed_entity_change_per_scope (old new : ComposeIR) (name : String) :
    (name ∈ mapKeys old.services → name ∉ mapKeys new.services →
      (Compare old new).changes.countP
        (fun c => decide (isEntityRemoval .service name c)) = 1 ∧
      ∀ c ∈ (Compare old new).changes, isEntityRemoval .service name c →
        c.path = "services." ++ name ∧ c.severity = severityBreaking) ∧
    (name ∈ mapKeys old.volumes → name ∉ mapKeys new.volumes →
      (Compare old new).changes.countP
        (fun c => decide (isEntityRemoval .volume name c)) = 1 ∧
      ∀ c ∈ (Compare old new).changes, isEntityRemoval .volume name c →
        c.path = "volumes." ++ name ∧ c.severity = severityBreaking) ∧
    (name ∈ mapKeys old.networks → name ∉ mapKeys new.networks →
      (Compare old new).changes.countP
        (fun c => decide (isEntityRemoval .network name c)) = 1 ∧
      ∀ c ∈ (Compare old new).changes, isEntityRemoval .network name c →
        c.path = "networks." ++ name ∧ c.severity = severityWarning) := by
  refine ⟨fun h1 h2 => ⟨?_, ?_⟩, fun h1 h2 => ⟨?_, ?_⟩, fun h1 h2 => ⟨?_, ?_⟩⟩
  · rw [Compare_changes]
    simp only [List.countP_append]
    rw [servicesChangeList_countP_removed h1 h2,
      countP_eq_zero_of_scope (by simp) volumesChangeList_scope name,
      countP_eq_zero_of_scope (by simp) networksChangeList_scope name]
  · intro c hc hpred
    rw [Compare_changes] at hc
    simp only [List.mem_append] at hc
    rcases hc with (hc | hc) | hc
    · rw [servicesChangeList_removed_unique h2 c hc hpred]
      exact ⟨rfl, rfl⟩
    · exact absurd (volumesChangeList_scope c hc ▸ hpred.1) (by simp)
    · exact absurd (networksChangeList_scope c hc ▸ hpred.1) (by simp)
  · rw [Compare_changes]
    simp only [List.countP_append]
    rw [volumesChangeList_countP_removed h1 h2,
      countP_eq_zero_of_scope (by simp) servicesChangeList_scope name,
      countP_eq_zero_of_scope (by simp) networksChangeList_scope name]
  · intro c hc hpred
    rw [Compare_changes] at hc
    simp only [List.mem_append] at hc
    rcases hc with (hc | hc) | hc
    · exact absurd (servicesChangeList_scope c hc ▸ hpred.1) (by simp)
    · rw [volumesChangeList_removed_unique c hc hpred]
      exact ⟨rfl, rfl⟩
    · exact absurd (networksChangeList_scope c hc ▸ hpred.1) (by simp)
  · rw [Compare_changes]
    simp only [List.countP_append]
    rw [networksChangeList_countP_removed h1 h2,
      countP_eq_zero_of_scope (by simp) servicesChangeList_scope name,
      countP_eq_zero_of_scope (by simp) volumesChangeList_scope name]
  · intro c hc hpred
    rw [Compare_changes] at hc
    simp only [List.mem_append] at hc
    rcases hc with (hc | hc) | hc
    · exact absurd (servicesChangeList_scope c hc ▸ hpred.1) (by simp)
    · exact absurd (volumesChangeList_scope c hc ▸ hpred.1) (by simp)
    · rw [networksChangeList_removed_unique c hc hpred]
      exact ⟨rfl, rfl⟩

/-- Witness for C1's theorem at a concrete pair of trees: removing the only
service, volume and network yields exactly one entity-level removal each,
with severity `breaking`/`breaking`/`warning` respectively. -/
theorem removed_entity_change_per_scope_witness :
    ((Compare
        { services := [("worker", default)], volumes := [("pgdata", default)],
          networks := [("backend", default)] }
        { services := [], volumes := [], networks := [] }).changes.countP
      (fun c => decide (isEntityRemoval .service "worker" c)) = 1) ∧
    ((Compare
        { services := [("worker", default)], volumes := [("pgdata", default)],
          networks := [("backend", default)] }
        { services := [], volumes := [], networks := [] }).changes.countP
      (fun c => decide (isEntityRemoval .volume "pgdata" c)) = 1) ∧
    ((Compare
        { services := [("worker", default)], volumes := [("pgdata", default)],
          networks := [("backend", default)] }
        { services := [], volumes := [], networks := [] }).changes.countP
      (fun c => decide (isEntityRemoval .network "backend" c)) = 1) :=
  ⟨((removed_entity_change_per_scope _ _ "worker").1 (by decide) (by decide)).1,
   ((removed_entity_change_per_scope _ _ "pgdata").2.1 (by decide) (by decide)).1,
   ((removed_entity_change_per_scope _ _ "backend").2.2 (by decide) (by decide)).1⟩

/-- Counterexample to C1 as stated: a network present only in the old tree
produces its entity-level `removed` Change with severity `warning`, not the
claimed pre-seeded `breaking`. -/
theorem removed_network_not_breaking :
    (Compare
        { services := [], volumes := [], networks := [("backend", default)] }
        { services := [], volumes := [], networks := [] }).changes =
      [{ kind := .removed, scope := .network, name := "backend",
         path := "networks.backend",
         before := .net default, after := .null,
         severity := severityWarning }] ∧
    severityWarning ≠ severityBreaking := by
  constructor
  · decide
  · decide

/-! ## Claim C4 -/

theorem mem_compareService_of_networks {name : String} {o w : ServiceIR}
    {c : Change}
    (h : c ∈ compareStringSlice name ("services." ++ name ++ ".networks")
      o.networks w.networks severityInfo) :
    c ∈ compareService name o w := by
  simp only [compareService, List.mem_append]
  exact Or.inl (Or.inl (Or.inl (Or.inl (Or.inl (Or.inr h)))))

theorem mem_compareService_of_dependsOn {name : String} {o w : ServiceIR}
    {c : Change}
    (h : c ∈ compareStringSlice name ("services." ++ name ++ ".depends_on")
      o.dependsOn w.dependsOn severityWarning) :
    c ∈ compareService name o w := by
  simp only [compareService, List.mem_append]
  exact Or.inl (Or.inl (Or.inl (Or.inl (Or.inr h))))

/-- C4 (corrected).  For a service present in both trees, a removed
`depends_on` item yields a `removed` Change with default severity `warning`,
but a removed `networks` item yields default severity `info` (the claim's
`warning` fails there): `compareService` passes `SeverityInfo` as the
removal severity for the networks slice and `SeverityWarning` for the
depends_on slice. -/
theorem removed_list_item_severity (name : String) (o w : ServiceIR) (item : String) :
    (item ∈ o.networks → item ∉ w.networks →
      ∃ c ∈ compareService name o w, c.kind = .removed ∧
        c.path = "services." ++ name ++ ".networks" ++ "." ++ item ∧
        c.before = .str item ∧ c.after = .null ∧
        c.severity = severityInfo) ∧
    (item ∈ o.dependsOn → item ∉ w.dependsOn →
      ∃ c ∈ compareService name o w, c.kind = .removed ∧
        c.path = "services." ++ name ++ ".depends_on" ++ "." ++ item ∧
        c.before = .str item ∧ c.after = .null ∧
        c.severity = severityWarning) := by
  constructor
  · intro h1 h2
    have hmem : ({ kind := .removed, scope := .service, name := name,
                   path := ("services." ++ name ++ ".networks") ++ "." ++ item,
                   before := .str item, after := .null,
                   severity := severityInfo } : Change) ∈
        compareStringSlice name ("services." ++ name ++ ".networks")
          o.networks w.networks severityInfo := by
      simp only [compareStringSlice, List.mem_append, List.mem_map]
      exact Or.inr ⟨item, mem_diffSets_removed.mpr ⟨h1, h2⟩, rfl⟩
    exact ⟨_, mem_compareService_of_networks hmem, rfl, rfl, rfl, rfl, rfl⟩
  · intro h1 h2
    have hmem : ({ kind := .removed, scope := .service, name := name,
                   path := ("services." ++ name ++ ".depends_on") ++ "." ++ item,
                   before := .str item, after := .null,
                   severity := severityWarning } : Change) ∈
        compareStringSlice name ("services." ++ name ++ ".depends_on")
          o.dependsOn w.dependsOn severityWarning := by
      simp only [compareStringSlice, List.mem_append, List.mem_map]
      exact Or.inr ⟨item, mem_diffSets_removed.mpr ⟨h1, h2⟩, rfl⟩
    exact ⟨_, mem_compareService_of_dependsOn hmem, rfl, rfl, rfl, rfl, rfl⟩

/-- Witness for C4's theorem: a service that loses the network `backend`
and the dependency `db`. -/
theorem removed_list_item_severity_witness :
    (∃ c ∈ compareService "api"
        { (default : ServiceIR) with networks := ["backend"], dependsOn := ["db"] }
        default, c.kind = .removed ∧
      c.path = "services." ++ "api" ++ ".networks" ++ "." ++ "backend" ∧
      c.before = .str "backend" ∧ c.after = .null ∧
      c.severity = severityInfo) ∧
    (∃ c ∈ compareService "api"
        { (default : ServiceIR) with networks := ["backend"], dependsOn := ["db"] }
        default, c.kind = .removed ∧
      c.path = "services." ++ "api" ++ ".depends_on" ++ "." ++ "db" ∧
      c.before = .str "db" ∧ c.after = .null ∧
      c.severity = severityWarning) :=
  ⟨(removed_list_item_severity "api" _ _ "backend").1 (by decide) (by decide),
   (removed_list_item_severity "api" _ _ "db").2 (by decide) (by decide)⟩

/-- Counterexample to C4 as stated: the only change for a service that lost
the network `backend` is a removed Change with severity `info`, not the
claimed `warning`. -/
theorem removed_network_item_not_warning :
    compareService "api"
        { (default : ServiceIR) with networks := ["backend"] } default =
      [{ kind := .removed, scope := .service, name := "api",
         path := "services.api.networks.backend",
         before := .str "backend", after := .null,
         severity := severityInfo }] ∧
    severityInfo ≠ severityWarning := by
  constructor
  · decide
  · decide

/-! ## Claim C3 -/

theorem diffSets_added_self (l : List String) : (diffSets l l).1 = [] := by
  have h : l.dedup.filter (fun s => !decide (s ∈ l)) = [] := by
    rw [List.filter_eq_nil_iff]
    intro a ha
    simp [List.mem_dedup.mp ha]
  simp [diffSets, sortStrings, h]

theorem diffSets_removed_self (l : List String) : (diffSets l l).2.1 = [] := by
  have h : l.dedup.filter (fun s => !decide (s ∈ l)) = [] := by
    rw [List.filter_eq_nil_iff]
    intro a ha
    simp [List.mem_dedup.mp ha]
  simp [diffSets, sortStrings, h]

theorem ptrEqual_self (a : Option String) : ptrEqual a a = true := by
  cases a <;> simp [ptrEqual]

theorem sliceEqual_self (l : List String) : sliceEqual l l = true := by
  induction l with
  | nil => rfl
  | cons a l ih => simp [sliceEqual, ih]

theorem healthcheckEqual_self (a : Option HealthcheckIR) :
    healthcheckEqual a a = true := by
  cases a <;> simp [healthcheckEqual]

theorem compareEnv_self (n b : String) (e : List (String × Option String)) :
    compareEnv n b e e = [] := by
  simp [compareEnv, diffSets_added_self, diffSets_removed_self]

theorem comparePorts_self (n b : String) (l : List PortIR) :
    comparePorts n b l l = [] := by
  simp [comparePorts, diffSets_added_self, diffSets_removed_self]

theorem compareServiceVolumes_self (n b : String) (l : List MountIR) :
    compareServiceVolumes n b l l = [] := by
  simp [compareServiceVolumes, diffSets_added_self, diffSets_removed_self]

theorem compareStringSlice_self (n p : String) (l : List String) (sev : String) :
    compareStringSlice n p l l sev = [] := by
  simp [compareStringSlice, diffSets_added_self, diffSets_removed_self]

/-- `compareService` never reads the `labels` field: two services that agree
on everything else produce no changes. -/
theorem compareService_ignores_labels (name : String) (s : ServiceIR)
    (L : List (String × String)) :
    compareService name s { s with labels := L } = [] := by
  simp [compareService, ptrEqual_self, sliceEqual_self, healthcheckEqual_self,
    compareEnv_self, comparePorts_self, compareServiceVolumes_self,
    compareStringSlice_self]

theorem mem_envKeys {k : String} {m : List (String × Option String)} :
    k ∈ envKeys m ↔ k ∈ m.map Prod.fst := by
  simp [envKeys, mem_sortStrings]

/-- C3 (corrected).  For services present in both trees the environment map
is reconciled by key exactly as claimed (added / removed / modified), but
the labels map is not compared at all: `compareService` never touches
`labels`, so a labels-only difference produces no Change. -/
theorem env_reconciled_by_key_labels_ignored
    (name base : String) (o w : List (String × Option String)) (k : String) :
    (k ∈ w.map Prod.fst → k ∉ o.map Prod.fst →
      ∃ c ∈ compareEnv name base o w, c.kind = .added ∧
        c.path = base ++ ".environment." ++ k ∧ c.before = .null ∧
        c.after = ptrValue (envGet w k) ∧ c.severity = severityInfo) ∧
    (k ∈ o.map Prod.fst → k ∉ w.map Prod.fst →
      ∃ c ∈ compareEnv name base o w, c.kind = .removed ∧
        c.path = base ++ ".environment." ++ k ∧
        c.before = ptrValue (envGet o k) ∧ c.after = .null ∧
        c.severity = severityBreaking) ∧
    (k ∈ o.map Prod.fst → k ∈ w.map Prod.fst →
      ptrValue (envGet o k) ≠ ptrValue (envGet w k) →
      ∃ c ∈ compareEnv name base o w, c.kind = .modified ∧
        c.path = base ++ ".environment." ++ k ∧
        c.before = ptrValue (envGet o k) ∧ c.after = ptrValue (envGet w k) ∧
        c.severity = severityWarning) ∧
    (∀ (s : ServiceIR) (L : List (String × String)),
      compareService name s { s with labels := L } = []) := by
  refine ⟨fun h1 h2 => ?_, fun h1 h2 => ?_, fun h1 h2 hne => ?_,
    fun s L => compareService_ignores_labels name s L⟩
  · have hk : k ∈ (diffSets (envKeys o) (envKeys w)).1 :=
      mem_diffSets_added.mpr
        ⟨mem_envKeys.mpr h1, fun hmem => h2 (mem_envKeys.mp hmem)⟩
    have hmem : ({ kind := .added, scope := .service, name := name,
                   path := base ++ ".environment." ++ k,
                   before := .null, after := ptrValue (envGet w k),
                   severity := severityInfo } : Change) ∈
        compareEnv name base o w := by
      simp only [compareEnv, List.mem_append, List.mem_map]
      exact Or.inl (Or.inl ⟨k, hk, rfl⟩)
    exact ⟨_, hmem, rfl, rfl, rfl, rfl, rfl⟩
  · have hk : k ∈ (diffSets (envKeys o) (envKeys w)).2.1 :=
      mem_diffSets_removed.mpr
        ⟨mem_envKeys.mpr h1, fun hmem => h2 (mem_envKeys.mp hmem)⟩
    have hmem : ({ kind := .removed, scope := .service, name := name,
                   path := base ++ ".environment." ++ k,
                   before := ptrValue (envGet o k), after := .null,
                   severity := severityBreaking } : Change) ∈
        compareEnv name base o w := by
      simp only [compareEnv, List.mem_append, List.mem_map]
      exact Or.inl (Or.inr ⟨k, hk, rfl⟩)
    exact ⟨_, hmem, rfl, rfl, rfl, rfl, rfl⟩
  · have hk : k ∈ (diffSets (envKeys o) (envKeys w)).2.2 :=
      mem_diffSets_common.mpr ⟨mem_envKeys.mpr h1, mem_envKeys.mpr h2⟩
    have hmem : ({ kind := .modified, scope := .service, name := name,
                   path := base ++ ".environment." ++ k,
                   before := ptrValue (envGet o k),
                   after := ptrValue (envGet w k),
                   severity := severityWarning } : Change) ∈
        compareEnv name base o w := by
      simp only [compareEnv, List.mem_append, List.mem_map, List.mem_filter]
      exact Or.inr ⟨k, ⟨hk, by simpa using hne⟩, rfl⟩
    exact ⟨_, hmem, rfl, rfl, rfl, rfl, rfl⟩

/-- Witness for C3's theorem: an environment with one added, one removed and
one modified key, and a labels-only difference that yields no change. -/
theorem env_reconciled_by_key_labels_ignored_witness :
    (∃ c ∈ compareEnv "api" "services.api"
        [("OLD", some "1"), ("MOD", some "a")] [("NEW", none), ("MOD", none)],
      c.kind = .added ∧
        c.path = "services.api" ++ ".environment." ++ "NEW" ∧ c.before = .null ∧
        c.after = ptrValue (envGet [("NEW", none), ("MOD", none)] "NEW") ∧
        c.severity = severityInfo) ∧
    (∃ c ∈ compareEnv "api" "services.api"
        [("OLD", some "1"), ("MOD", some "a")] [("NEW", none), ("MOD", none)],
      c.kind = .removed ∧
        c.path = "services.api" ++ ".environment." ++ "OLD" ∧
        c.before = ptrValue (envGet [("OLD", some "1"), ("MOD", some "a")] "OLD") ∧
        c.after = .null ∧ c.severity = severityBreaking) ∧
    (∃ c ∈ compareEnv "api" "services.api"
        [("OLD", some "1"), ("MOD", some "a")] [("NEW", none), ("MOD", none)],
      c.kind = .modified ∧
        c.path = "services.api" ++ ".environment." ++ "MOD" ∧
        c.before = ptrValue (envGet [("OLD", some "1"), ("MOD", some "a")] "MOD") ∧
        c.after = ptrValue (envGet [("NEW", none), ("MOD", none)] "MOD") ∧
        c.severity = severityWarning) ∧
    compareService "cache" default { (default : ServiceIR) with
      labels := [("team", "core")] } = [] :=
  ⟨(env_reconciled_by_key_labels_ignored "api" "services.api" _ _ "NEW").1
      (by decide) (by decide),
   (env_reconciled_by_key_labels_ignored "api" "services.api" _ _ "OLD").2.1
      (by decide) (by decide),
   (env_reconciled_by_key_labels_ignored "api" "services.api" _ _ "MOD").2.2.1
      (by decide) (by decide) (by decide),
   (env_reconciled_by_key_labels_ignored "cache" "" [] [] "").2.2.2 default
      [("team", "core")]⟩

/-- Counterexample to C3 as stated: two services that differ only in their
labels maps produce no Change at all. -/
theorem labels_difference_produces_no_change :
    compareService "api"
        { (default : ServiceIR) with labels := [("team", "core")] } default = [] ∧
    ({ (default : ServiceIR) with labels := [("team", "core")] } : ServiceIR).labels ≠
      (default : ServiceIR).labels := by
  constructor
  · decide
  · decide

/-! ## Claim C6 -/

/-- The kind invariant a produced Change satisfies: `added` has an absent
before-value, `removed` an absent after-value, and `modified` unequal
values (either of which may be absent — see the counterexample to the
spec's stronger "both present" form). -/
def ChangeInv (c : Change) : Prop :=
  (c.kind = .added → c.before = .null) ∧
  (c.kind = .removed → c.after = .null) ∧
  (c.kind = .modified → c.before ≠ c.after)

theorem ptrValue_ne_of_ptrEqual_false {a b : Option String}
    (h : ptrEqual a b = false) : ptrValue a ≠ ptrValue b := by
  cases a <;> cases b <;> simp_all [ptrEqual, ptrValue]

theorem sliceEqual_eq {a b : List String} : sliceEqual a b = true ↔ a = b := by
  induction a generalizing b with
  | nil => cases b <;> simp [sliceEqual]
  | cons x xs ih =>
    cases b with
    | nil => simp [sliceEqual]
    | cons y ys => simp [sliceEqual, ih]

theorem compareEnv_inv {n b : String} {o w : List (String × Option String)} :
    ∀ c ∈ compareEnv n b o w, ChangeInv c := by
  intro c hc
  simp only [compareEnv, List.mem_append, List.mem_map, List.mem_filter] at hc
  rcases hc with (⟨k, _, rfl⟩ | ⟨k, _, rfl⟩) | ⟨k, ⟨_, hk⟩, rfl⟩
  · exact ⟨fun _ => rfl, by simp, by simp⟩
  · exact ⟨by simp, fun _ => rfl, by simp⟩
  · refine ⟨by simp, by simp, fun _ => ?_⟩
    simpa using hk

theorem comparePorts_inv {n b : String} {o w : List PortIR} :
    ∀ c ∈ comparePorts n b o w, ChangeInv c := by
  intro c hc
  simp only [comparePorts, List.mem_append, List.mem_map, List.mem_filter] at hc
  rcases hc with (⟨k, _, rfl⟩ | ⟨k, _, rfl⟩) | ⟨k, ⟨_, hk⟩, rfl⟩
  · exact ⟨fun _ => rfl, by simp, by simp⟩
  · exact ⟨by simp, fun _ => rfl, by simp⟩
  · refine ⟨by simp, by simp, fun _ => ?_⟩
    have := of_decide_eq_true hk
    simpa using this

theorem compareServiceVolumes_inv {n b : String} {o w : List MountIR} :
    ∀ c ∈ compareServiceVolumes n b o w, ChangeInv c := by
  intro c hc
  simp only [compareServiceVolumes, List.mem_append, List.mem_map,
    List.mem_filter] at hc
  rcases hc with (⟨k, _, rfl⟩ | ⟨k, _, rfl⟩) | ⟨k, ⟨_, hk⟩, rfl⟩
  · exact ⟨fun _ => rfl, by simp, by simp⟩
  · exact ⟨by simp, fun _ => rfl, by simp⟩
  · refine ⟨by simp, by simp, fun _ => ?_⟩
    have := of_decide_eq_true hk
    simpa using this

theorem compareStringSlice_inv {n p : String} {o w : List String} {sev : String} :
    ∀ c ∈ compareStringSlice n p o w sev, ChangeInv c := by
  intro c hc
  simp only [compareStringSlice, List.mem_append, List.mem_map] at hc
  rcases hc with ⟨k, _, rfl⟩ | ⟨k, _, rfl⟩
  · exact ⟨fun _ => rfl, by simp, by simp⟩
  · exact ⟨by simp, fun _ => rfl, by simp⟩

theorem compareService_inv {name : String} {o w : ServiceIR} :
    ∀ c ∈ compareService name o w, ChangeInv c := by
  intro c hc
  simp only [compareService, List.mem_append] at hc
  rcases hc with ((((((((h | h) | h) | h) | h) | h) | h) | h) | h) | h
  · obtain ⟨hb, rfl⟩ := mem_ite_singleton.mp h
    refine ⟨by simp, by simp, fun _ => ?_⟩
    exact ptrValue_ne_of_ptrEqual_false (by simpa using hb)
  · exact compareEnv_inv c h
  · exact comparePorts_inv c h
  · exact compareServiceVolumes_inv c h
  · exact compareStringSlice_inv c h
  · exact compareStringSlice_inv c h
  · obtain ⟨hb, rfl⟩ := mem_ite_singleton.mp h
    have hb' : healthcheckEqual o.healthcheck w.healthcheck = false := by
      simpa using hb
    rcases ho : o.healthcheck with _ | x <;> rcases hw : w.healthcheck with _ | y
    · rw [ho, hw] at hb'
      simp [healthcheckEqual] at hb'
    · exact ⟨fun _ => rfl, by simp [changeKindForPtrs], by simp [changeKindForPtrs]⟩
    · exact ⟨by simp [changeKindForPtrs], fun _ => rfl, by simp [changeKindForPtrs]⟩
    · rw [ho, hw] at hb'
      refine ⟨by simp [changeKindForPtrs], by simp [changeKindForPtrs], fun _ => ?_⟩
      have : x ≠ y := by simpa [healthcheckEqual] using hb'
      simp [healthValue, this]
  · obtain ⟨hb, rfl⟩ := mem_ite_singleton.mp h
    refine ⟨by simp, by simp, fun _ => ?_⟩
    have : o.command ≠ w.command := by
      intro hcmd
      have := sliceEqual_eq.mpr hcmd
      simp_all
    simp [this]
  · obtain ⟨hb, rfl⟩ := mem_ite_singleton.mp h
    refine ⟨by simp, by simp, fun _ => ?_⟩
    have : o.entrypoint ≠ w.entrypoint := by
      intro hent
      have := sliceEqual_eq.mpr hent
      simp_all
    simp [this]
  · obtain ⟨hb, rfl⟩ := mem_ite_singleton.mp h
    refine ⟨by simp, by simp, fun _ => ?_⟩
    exact ptrValue_ne_of_ptrEqual_false (by simpa using hb)

theorem servicesChangeList_inv {o w : List (String × ServiceIR)} :
    ∀ c ∈ servicesChangeList o w, ChangeInv c := by
  intro c hc
  simp only [servicesChangeList, List.mem_append, List.mem_map,
    List.mem_flatMap] at hc
  rcases hc with (⟨k, _, rfl⟩ | ⟨k, _, rfl⟩) | ⟨k, _, hk⟩
  · exact ⟨fun _ => rfl, by simp [serviceAddedChange], by simp [serviceAddedChange]⟩
  · exact ⟨by simp [serviceRemovedChange], fun _ => rfl, by simp [serviceRemovedChange]⟩
  · exact compareService_inv c hk

theorem volumesChangeList_inv {o w : List (String × VolumeIR)} :
    ∀ c ∈ volumesChangeList o w, ChangeInv c := by
  intro c hc
  simp only [volumesChangeList, List.mem_append, List.mem_map] at hc
  rcases hc with ⟨k, _, rfl⟩ | ⟨k, _, rfl⟩
  · exact ⟨fun _ => rfl, by simp [volumeAddedChange], by simp [volumeAddedChange]⟩
  · exact ⟨by simp [volumeRemovedChange], fun _ => rfl, by simp [volumeRemovedChange]⟩

theorem networksChangeList_inv {o w : List (String × NetworkIR)} :
    ∀ c ∈ networksChangeList o w, ChangeInv c := by
  intro c hc
  simp only [networksChangeList, List.mem_append, List.mem_map] at hc
  rcases hc with ⟨k, _, rfl⟩ | ⟨k, _, rfl⟩
  · exact ⟨fun _ => rfl, by simp [networkAddedChange], by simp [networkAddedChange]⟩
  · exact ⟨by simp [networkRemovedChange], fun _ => rfl, by simp [networkRemovedChange]⟩

/-- C6 (corrected).  Every Change the differ produces satisfies: `added` has
an absent before-value, `removed` has an absent after-value, and `modified`
has unequal before/after values.  The claim's stronger requirement that a
`modified` Change has *both values present* fails: the declared-with-value →
declared-unset environment transition is emitted as `modified` with an
absent after-value (see the counterexample). -/
theorem differ_change_kind_invariant (old new : ComposeIR) :
    ∀ c ∈ (Compare old new).changes, ChangeInv c := by
  intro c hc
  rw [Compare_changes] at hc
  simp only [List.mem_append] at hc
  rcases hc with (hc | hc) | hc
  · exact servicesChangeList_inv c hc
  · exact volumesChangeList_inv c hc
  · exact networksChangeList_inv c hc

/-- Witness for C6's theorem at a concrete pair of trees: the single
entity-added change of a one-service diff satisfies the invariant. -/
theorem differ_change_kind_invariant_witness :
    ChangeInv { kind := .added, scope := .service, name := "api",
                path := "services.api", before := .null,
                after := .svc default, severity := severityInfo } :=
  differ_change_kind_invariant
    { services := [], volumes := [], networks := [] }
    { services := [("api", default)], volumes := [], networks := [] }
    _ (by decide)

/-- Counterexample to C6 as stated: changing an environment variable from
declared-with-value to declared-unset yields exactly one Change, of kind
`modified`, whose after-value is absent — contradicting "modified changes
have both present". -/
theorem modified_change_with_absent_after :
    ((Compare
        { services := [("api", { (default : ServiceIR) with
            env := [("K", some "x")] })], volumes := [], networks := [] }
        { services := [("api", { (default : ServiceIR) with
            env := [("K", none)] })], volumes := [], networks := [] }).changes.length
      = 1) ∧
    ((Compare
        { services := [("api", { (default : ServiceIR) with
            env := [("K", some "x")] })], volumes := [], networks := [] }
        { services := [("api", { (default : ServiceIR) with
            env := [("K", none)] })], volumes := [], networks := [] }).changes.countP
      (fun c => decide (c.kind = .modified ∧ c.after = .null)) = 1) := by
  constructor
  · decide
  · decide

/-! ## Claim C7 -/

/-- C7 (confirmed).  Ports are reconciled by the synthetic key
`hostPort:containerPort/protocol`, never positionally: for old ports
`["80:80"]` and new ports `["8080:80"]` the diff holds exactly one `removed`
Change for key `80:80/tcp`, one `added` Change for key `8080:80/tcp`, and no
`modified` Change. -/
theorem port_rebinding_one_remove_one_add :
    ((comparePorts "web" "services.web"
        [parsePortString "80:80"] [parsePortString "8080:80"]).countP
      (fun c => decide (c.kind = .removed ∧
        c.path = "services.web.ports.80:80/tcp")) = 1) ∧
    ((comparePorts "web" "services.web"
        [parsePortString "80:80"] [parsePortString "8080:80"]).countP
      (fun c => decide (c.kind = .added ∧
        c.path = "services.web.ports.8080:80/tcp")) = 1) ∧
    ((comparePorts "web" "services.web"
        [parsePortString "80:80"] [parsePortString "8080:80"]).countP
      (fun c => decide (c.kind = .modified)) = 0) ∧
    (comparePorts "web" "services.web"
        [parsePortString "80:80"] [parsePortString "8080:80"]).length = 2 := by
  refine ⟨?_, ?_, ?_, ?_⟩ <;> decide

/-! ## Claim C2 -/

theorem applyRulesLoop_spec (r : Rules) (l : List Change) :
    (applyRulesLoop r l).2.1 =
      (applyRulesLoop r l).1.countP (fun c => decide (c.severity = severityBreaking)) ∧
    (applyRulesLoop r l).2.2.1 =
      (applyRulesLoop r l).1.countP (fun c => decide (c.severity = severityWarning)) ∧
    (applyRulesLoop r l).2.2.2 =
      (applyRulesLoop r l).1.countP (fun c =>
        decide (c.severity ≠ severityBreaking ∧ c.severity ≠ severityWarning)) := by
  induction l with
  | nil => simp [applyRulesLoop]
  | cons c rest ih =>
    obtain ⟨h1, h2, h3⟩ := ih
    simp only [applyRulesLoop]
    split
    · exact ⟨h1, h2, h3⟩
    · split
      · exact ⟨h1, h2, h3⟩
      · refine ⟨?_, ?_, ?_⟩ <;>
          simp only [List.countP_cons, ← h1, ← h2, ← h3] <;>
          split_ifs <;> simp_all

/-- C2 (corrected).  After `applyRules`, the total and the three per-severity
counters equal the aggregates recomputed from the retained Changes list (with
`info` counting every severity other than `breaking`/`warning`, as the Go
`switch` default does); the per-scope entity counters are carried over from
the input summary unchanged, and the severity/service filter functions copy
the entire input summary unchanged (which is what falsifies the claim as
stated — see the counterexample). -/
theorem applyRules_summary_recomputed (report : DiffReport) (r : Rules) :
    ((applyRules report r).summary.totalChanges =
      (applyRules report r).changes.length) ∧
    ((applyRules report r).summary.breakingCount =
      (applyRules report r).changes.countP (fun c =>
        decide (c.severity = severityBreaking))) ∧
    ((applyRules report r).summary.warningCount =
      (applyRules report r).changes.countP (fun c =>
        decide (c.severity = severityWarning))) ∧
    ((applyRules report r).summary.infoCount =
      (applyRules report r).changes.countP (fun c =>
        decide (c.severity ≠ severityBreaking ∧ c.severity ≠ severityWarning))) ∧
    ((applyRules report r).summary.servicesAdded = report.summary.servicesAdded ∧
     (applyRules report r).summary.servicesRemoved = report.summary.servicesRemoved ∧
     (applyRules report r).summary.servicesChanged = report.summary.servicesChanged ∧
     (applyRules report r).summary.volumesAdded = report.summary.volumesAdded ∧
     (applyRules report r).summary.volumesRemoved = report.summary.volumesRemoved ∧
     (applyRules report r).summary.networksAdded = report.summary.networksAdded ∧
     (applyRules report r).summary.networksRemoved = report.summary.networksRemoved) ∧
    (∀ (rep : DiffReport) (s : String),
      (FilterBySeverity rep s).summary = rep.summary ∧
      (FilterByService rep s).summary = rep.summary) := by
  obtain ⟨h1, h2, h3⟩ := applyRulesLoop_spec r report.changes
  exact ⟨rfl, h1, h2, h3, ⟨rfl, rfl, rfl, rfl, rfl, rfl, rfl⟩,
    fun rep s => ⟨rfl, rfl⟩⟩

/-- Counterexample to C2 as stated: `FilterBySeverity` drops the only (info)
change but copies the input Summary, so the handed-back report has
`TotalChanges = 1` with an empty Changes list — the Summary does not equal
the aggregate recomputed from the retained list. -/
theorem filter_by_severity_summary_stale :
    ((FilterBySeverity (addChange newDiffReport
        { kind := .modified, scope := .service, name := "api",
          path := "services.api.image", before := .str "node:18",
          after := .str "node:20", severity := severityInfo })
        "breaking").changes.length = 0) ∧
    ((FilterBySeverity (addChange newDiffReport
        { kind := .modified, scope := .service, name := "api",
          path := "services.api.image", before := .str "node:18",
          after := .str "node:20", severity := severityInfo })
        "breaking").summary.totalChanges = 1) := by
  constructor
  · decide
  · decide

/-! ## Claim C8 -/

theorem imageSeverity_warning_of_major_change {o n : String}
    (h1 : extractMajorVersion (extractTag o) ≠ "")
    (h2 : extractMajorVersion (extractTag n) ≠ "")
    (h3 : extractMajorVersion (extractTag o) ≠ extractMajorVersion (extractTag n)) :
    imageSeverity (some o) (some n) = severityWarning := by
  have htag : extractTag o ≠ extractTag n := fun h => h3 (by rw [h])
  simp only [imageSeverity]
  rw [if_neg htag, if_pos ⟨h1, h2, h3⟩]

/-- C8 (confirmed).  (i) When both image tags yield a leading numeric major
version and the majors differ, the default severity is `warning`.  (ii) When
the new major is numerically lower (Go `Atoi` semantics), `IsBreakingChange`
returns `true` on the modified `.image` Change while the default severity
stays `warning`.  (iii) A digest-based reference yields no tag and the
change is classified `info`. -/
theorem image_major_change_severity :
    (∀ o n : String,
      extractMajorVersion (extractTag o) ≠ "" →
      extractMajorVersion (extractTag n) ≠ "" →
      extractMajorVersion (extractTag o) ≠ extractMajorVersion (extractTag n) →
      imageSeverity (some o) (some n) = severityWarning) ∧
    (∀ (c : Change) (o n : String),
      c.kind = .modified → goHasSuffix c.path ".image" = true →
      c.before = .str o → c.after = .str n →
      extractMajorVersion (extractTag o) ≠ "" →
      extractMajorVersion (extractTag n) ≠ "" →
      goAtoi (extractMajorVersion (extractTag n)) <
        goAtoi (extractMajorVersion (extractTag o)) →
      IsBreakingChange c = true ∧
        imageSeverity (some o) (some n) = severityWarning) ∧
    (∀ o n : String, n.toList.contains '@' = true →
      extractTag n = "" ∧ imageSeverity (some o) (some n) = severityInfo) := by
  refine ⟨fun o n h1 h2 h3 => imageSeverity_warning_of_major_change h1 h2 h3,
    fun c o n hkind hsuf hb ha h1 h2 hlt => ?_, fun o n hat => ?_⟩
  · have h3 : extractMajorVersion (extractTag o) ≠
        extractMajorVersion (extractTag n) := by
      intro heq
      rw [heq] at hlt
      exact lt_irrefl _ hlt
    refine ⟨?_, imageSeverity_warning_of_major_change h1 h2 h3⟩
    have hkr : ¬(c.kind = .removed ∧
        (goContains c.path ".environment." ∨ goContains c.path ".ports." ∨
         goContains c.path ".volumes." ∨ goContains c.path ".depends_on." ∨
         goContains c.path ".healthcheck" ∨ c.scope = .service ∨
         c.scope = .volume)) := by
      rintro ⟨hk, -⟩
      rw [hkind] at hk
      cases hk
    simp only [IsBreakingChange]
    rw [if_neg hkr, if_pos ⟨hsuf, hkind⟩, hb, ha]
    simp only
    rw [if_pos ⟨h1, h2, hlt⟩]
  · have htag : extractTag n = "" := by
      simp only [extractTag]
      rw [if_pos hat]
    refine ⟨htag, ?_⟩
    by_cases heq : extractTag o = extractTag n
    · simp only [imageSeverity]
      rw [if_pos heq]
    · simp only [imageSeverity]
      rw [if_neg heq, if_neg ?_]
      rintro ⟨-, h2, -⟩
      rw [htag] at h2
      exact h2 rfl

/-- Witness for C8's theorem: `app:3 → app:2` is a major-version downgrade
(warning severity, breaking-eligible), and `app:1 → app@sha256:abc` is a
digest reference (no tag, info). -/
theorem image_major_change_severity_witness :
    imageSeverity (some "app:3") (some "app:2") = severityWarning ∧
    (IsBreakingChange
        { kind := .modified, scope := .service, name := "api",
          path := "services.api.image", before := .str "app:3",
          after := .str "app:2", severity := severityWarning } = true ∧
      imageSeverity (some "app:3") (some "app:2") = severityWarning) ∧
    (extractTag "app@sha256:abc" = "" ∧
      imageSeverity (some "app:1") (some "app@sha256:abc") = severityInfo) :=
  ⟨image_major_change_severity.1 "app:3" "app:2"
      (by decide) (by decide) (by decide),
   image_major_change_severity.2.1 _ "app:3" "app:2"
      rfl (by decide) rfl rfl (by decide) (by decide) (by decide),
   image_major_change_severity.2.2 "app:1" "app@sha256:abc" (by decide)⟩

/-! ## Claim C9 -/

theorem insertionSort_idem {α : Type} {r : α → α → Prop} [DecidableRel r]
    [IsTotal α r] [IsTrans α r] (l : List α) :
    (l.insertionSort r).insertionSort r = l.insertionSort r :=
  (List.sorted_insertionSort r l).insertionSort_eq

theorem sortStrings_idem (l : List String) :
    sortStrings (sortStrings l) = sortStrings l :=
  insertionSort_idem l

theorem normalizePorts_idem (l : List PortIR) :
    normalizePorts (normalizePorts l) = normalizePorts l :=
  insertionSort_idem l

theorem normalizeVolumes_idem (l : List MountIR) :
    normalizeVolumes (normalizeVolumes l) = normalizeVolumes l :=
  insertionSort_idem l

theorem normalizeService_idem (svc : ServiceIR) :
    normalizeService (normalizeService svc) = normalizeService svc := by
  simp [normalizeService, sortedStrings, sortStrings_idem, normalizePorts_idem,
    normalizeVolumes_idem]

/-- C9 (confirmed).  Normalization is idempotent:
`Normalize (Normalize t) = Normalize t` for every ConfigTree. -/
theorem Normalize_idem (t : ComposeIR) :
    Normalize (Normalize t) = Normalize t := by
  simp only [Normalize, List.map_map, ComposeIR.mk.injEq, and_true]
  apply List.map_congr_left
  intro p _
  simp [Function.comp, normalizeService_idem]

/-! ## Claim C5 -/

theorem mapOpt_isSome_iff {α β : Type} {f : α → Option β} {l : List α} :
    (mapOpt f l).isSome = true ↔ ∀ a ∈ l, (f a).isSome = true := by
  induction l with
  | nil => simp [mapOpt]
  | cons a l ih =>
    constructor
    · intro h
      simp only [mapOpt] at h
      cases hfa : f a with
      | none =>
        rw [hfa] at h
        simp at h
      | some b =>
        rw [hfa] at h
        cases hml : mapOpt f l with
        | none =>
          rw [hml] at h
          simp at h
        | some bs =>
          intro x hx
          rcases List.mem_cons.mp hx with rfl | hx'
          · simp [hfa]
          · exact ih.mp (by simp [hml]) x hx'
    · intro h
      simp only [mapOpt]
      obtain ⟨b, hb⟩ := Option.isSome_iff_exists.mp (h a (by simp))
      rw [hb]
      obtain ⟨bs, hbs⟩ := Option.isSome_iff_exists.mp
        (ih.mpr (fun x hx => h x (by simp [hx])))
      simp [hbs]

theorem compileSeverityRule_isSome {rc : String → Option Regex}
    {sr : SeverityRule} :
    (compileSeverityRule rc sr).isSome = true ↔
      (sr.isRegex = true → (rc sr.pattern).isSome = true) := by
  unfold compileSeverityRule
  split_ifs with h
  · simp [h]
  · simp [h]

theorem compileIgnoreRule_isSome {rc : String → Option Regex}
    {ir : IgnoreRule} :
    (compileIgnoreRule rc ir).isSome = true ↔
      (ir.isRegex = true → (rc ir.pattern).isSome = true) := by
  unfold compileIgnoreRule
  split_ifs with h
  · simp [h]
  · simp [h]

theorem compileRulesWith_isSome_parts (rc : String → Option Regex)
    (config : RulesConfig) :
    (compileRulesWith rc config).isSome = true ↔
      ((mapOpt (compileSeverityRule rc) config.severityOverrides).isSome = true ∧
       (mapOpt (compileIgnoreRule rc) config.ignorePatterns).isSome = true) := by
  unfold compileRulesWith
  cases h1 : mapOpt (compileSeverityRule rc) config.severityOverrides with
  | none => simp
  | some sevs =>
    cases h2 : mapOpt (compileIgnoreRule rc) config.ignorePatterns with
    | none => simp
    | some igns => simp

theorem compileSeverityRule_severity {rc : String → Option Regex}
    {sr : SeverityRule} {cs : CompiledSeverity}
    (h : compileSeverityRule rc sr = some cs) : cs.severity = sr.severity := by
  unfold compileSeverityRule at h
  split_ifs at h
  · obtain ⟨re, -, rfl⟩ := Option.map_eq_some'.mp h
    rfl
  · rw [← Option.some.inj h]

theorem mapOpt_compileSeverity_severities {rc : String → Option Regex} :
    ∀ {l : List SeverityRule} {bs : List CompiledSeverity},
      mapOpt (compileSeverityRule rc) l = some bs →
      bs.map (fun cs => cs.severity) = l.map (fun sr => sr.severity) := by
  intro l
  induction l with
  | nil =>
    intro bs h
    simp only [mapOpt, Option.some.injEq] at h
    rw [← h]
    rfl
  | cons a l ih =>
    intro bs h
    simp only [mapOpt] at h
    cases hfa : compileSeverityRule rc a with
    | none =>
      rw [hfa] at h
      cases h
    | some b =>
      rw [hfa] at h
      cases hml : mapOpt (compileSeverityRule rc) l with
      | none =>
        rw [hml] at h
        cases h
      | some bs' =>
        rw [hml] at h
        simp only [Option.map_some', Option.some.injEq] at h
        rw [← h]
        simp [compileSeverityRule_severity hfa, ih hml]

theorem compileRulesWith_severities {rc : String → Option Regex}
    {config : RulesConfig} {rules : Rules}
    (h : compileRulesWith rc config = some rules) :
    rules.severityPatterns.map (fun cs => cs.severity) =
      config.severityOverrides.map (fun sr => sr.severity) := by
  unfold compileRulesWith at h
  cases h1 : mapOpt (compileSeverityRule rc) config.severityOverrides with
  | none =>
    rw [h1] at h
    cases h
  | some sevs =>
    rw [h1] at h
    cases h2 : mapOpt (compileIgnoreRule rc) config.ignorePatterns with
    | none =>
      rw [h2] at h
      cases h
    | some igns =>
      rw [h2] at h
      rw [← Option.some.inj h]
      exact mapOpt_compileSeverity_severities h1

/-- C5 (corrected).  For every regex compiler `rc` (`regexp.Compile` is
external and only partially modelled, so the characterization quantifies
over it): (i) rule loading yields a usable rule set exactly when every
regex-mode pattern compiles — the severity strings play no role; (ii) the
loaded rule set carries the configured severity strings verbatim; (iii) any
severity a loaded rule set's override lookup returns is one of the
configured strings, unvalidated and unnormalized.  The claimed load error
for an unknown severity name never happens (see the counterexample). -/
theorem rule_loading_errors_only_on_bad_regex :
    (∀ (rc : String → Option Regex) (config : RulesConfig),
      (compileRulesWith rc config).isSome = true ↔
        ((∀ sr ∈ config.severityOverrides,
            sr.isRegex = true → (rc sr.pattern).isSome = true) ∧
         (∀ ir ∈ config.ignorePatterns,
            ir.isRegex = true → (rc ir.pattern).isSome = true))) ∧
    (∀ (rc : String → Option Regex) (config : RulesConfig) (rules : Rules),
      compileRulesWith rc config = some rules →
        rules.severityPatterns.map (fun cs => cs.severity) =
          config.severityOverrides.map (fun sr => sr.severity)) ∧
    (∀ (rc : String → Option Regex) (config : RulesConfig) (rules : Rules)
        (path sev : String),
      compileRulesWith rc config = some rules →
      GetSeverityOverride rules path = some sev →
      sev ∈ config.severityOverrides.map (fun sr => sr.severity)) := by
  refine ⟨fun rc config => ?_, fun rc config rules h => compileRulesWith_severities h,
    fun rc config rules path sev hcfg hov => ?_⟩
  · rw [compileRulesWith_isSome_parts]
    constructor
    · rintro ⟨h1, h2⟩
      exact ⟨fun sr hsr => compileSeverityRule_isSome.mp (mapOpt_isSome_iff.mp h1 sr hsr),
        fun ir hir => compileIgnoreRule_isSome.mp (mapOpt_isSome_iff.mp h2 ir hir)⟩
    · rintro ⟨h1, h2⟩
      exact ⟨mapOpt_isSome_iff.mpr (fun sr hsr => compileSeverityRule_isSome.mpr (h1 sr hsr)),
        mapOpt_isSome_iff.mpr (fun ir hir => compileIgnoreRule_isSome.mpr (h2 ir hir))⟩
  · simp only [GetSeverityOverride] at hov
    obtain ⟨sp, hfind, hsev⟩ := Option.map_eq_some'.mp hov
    have hmem : sp ∈ rules.severityPatterns := List.mem_of_find?_eq_some hfind
    have : sev ∈ rules.severityPatterns.map (fun cs => cs.severity) :=
      List.mem_map.mpr ⟨sp, hmem, hsev⟩
    rw [compileRulesWith_severities hcfg] at this
    exact this

/-- Witness for C5's theorem at the executable compiler model: a
literal-glob rule set with the severity string `bogus` loads fine, a
regex-mode rule with the pattern `[` (invalid in RE2 as well) fails to
load, and the override lookup on the loaded rule set returns `bogus`
verbatim. -/
theorem rule_loading_errors_only_on_bad_regex_witness :
    (compileRulesWith parseRegex
        { version := "",
          severityOverrides := [{ pattern := "*", severity := "bogus", isRegex := false }],
          ignorePatterns := [], serviceIgnores := [],
          categories := [] }).isSome = true ∧
    (compileRulesWith parseRegex
        { version := "",
          severityOverrides := [{ pattern := "[", severity := "info", isRegex := true }],
          ignorePatterns := [], serviceIgnores := [],
          categories := [] }).isSome = false ∧
    "bogus" ∈ ([{ pattern := "*", severity := "bogus", isRegex := false }] :
        List SeverityRule).map (fun sr => sr.severity) := by
  refine ⟨?_, ?_, ?_⟩
  · exact (rule_loading_errors_only_on_bad_regex.1 parseRegex _).mpr
      ⟨by decide, by decide⟩
  · cases hs : (compileRulesWith parseRegex
        { version := "",
          severityOverrides := [{ pattern := "[", severity := "info", isRegex := true }],
          ignorePatterns := [], serviceIgnores := [],
          categories := [] }).isSome with
    | false => rfl
    | true =>
      obtain ⟨hall, -⟩ := (rule_loading_errors_only_on_bad_regex.1 parseRegex _).mp hs
      exact absurd
        (hall { pattern := "[", severity := "info", isRegex := true } (by decide) rfl)
        (by decide)
  · exact rule_loading_errors_only_on_bad_regex.2.2 parseRegex
      { version := "",
        severityOverrides := [{ pattern := "*", severity := "bogus", isRegex := false }],
        ignorePatterns := [], serviceIgnores := [],
        categories := [] }
      { config :=
          { version := "",
            severityOverrides := [{ pattern := "*", severity := "bogus", isRegex := false }],
            ignorePatterns := [], serviceIgnores := [],
            categories := [] },
        severityPatterns :=
          [{ pattern := none, literal := "*", severity := "bogus", isRegex := false }],
        ignorePatterns := [] }
      "services.api.image" "bogus" (by decide) (by decide)

/-- Counterexample to C5 as stated: a severity-override rule naming the
unknown severity `bogus` does not produce a load error — `compileRules`
returns a usable rule set, because severity strings are never validated. -/
theorem unknown_severity_name_loads_fine :
    (compileRules
        { version := "",
          severityOverrides := [{ pattern := "*.image", severity := "bogus", isRegex := false }],
          ignorePatterns := [], serviceIgnores := [],
          categories := [] }).isSome = true ∧
    ¬("bogus" = severityInfo ∨ "bogus" = severityWarning ∨
      "bogus" = severityBreaking) := by
  constructor
  · decide
  · decide

/-! ## Claim C10: correctness of the derivative matcher -/

theorem RLang_seq_inv {a b : Regex} {l : List Char}
    (h : RLang (.seq a b) l) :
    ∃ u v, l = u ++ v ∧ RLang a u ∧ RLang b v := by
  cases h with
  | seq h1 h2 => exact ⟨_, _, rfl, h1, h2⟩

theorem RLang_star_cons {a : Regex} {c : Char} {s : List Char}
    (h : RLang (.star a) (c :: s)) :
    ∃ u v, s = u ++ v ∧ RLang a (c :: u) ∧ RLang (.star a) v := by
  generalize hr : Regex.star a = r at h
  generalize hl : c :: s = l at h
  induction h generalizing c s with
  | eps => cases hr
  | chr => cases hr
  | any => cases hr
  | altL h1 => cases hr
  | altR h1 => cases hr
  | seq h1 h2 => cases hr
  | starNil => cases hl
  | starCons h1 h2 ih1 ih2 =>
    cases hr
    next u t =>
    cases u with
    | nil =>
      simp only [List.nil_append] at hl
      exact ih2 rfl hl
    | cons d u' =>
      rw [List.cons_append] at hl
      cases hl
      exact ⟨u', t, rfl, h1, h2⟩

theorem nullable_iff {r : Regex} : r.nullable = true ↔ RLang r [] := by
  induction r with
  | emp =>
    constructor
    · intro h
      simp [Regex.nullable] at h
    · intro h
      cases h
  | eps => exact ⟨fun _ => .eps, fun _ => rfl⟩
  | chr c =>
    constructor
    · intro h
      simp [Regex.nullable] at h
    · intro h
      cases h
  | any =>
    constructor
    · intro h
      simp [Regex.nullable] at h
    · intro h
      cases h
  | alt a b iha ihb =>
    simp only [Regex.nullable, Bool.or_eq_true, iha, ihb]
    constructor
    · rintro (h | h)
      · exact .altL h
      · exact .altR h
    · intro h
      cases h with
      | altL h => exact Or.inl h
      | altR h => exact Or.inr h
  | seq a b iha ihb =>
    simp only [Regex.nullable, Bool.and_eq_true, iha, ihb]
    constructor
    · rintro ⟨h1, h2⟩
      exact (List.nil_append ([] : List Char) ▸ RLang.seq h1 h2)
    · intro h
      obtain ⟨u, v, huv, h1, h2⟩ := RLang_seq_inv h
      obtain ⟨hu, hv⟩ := List.append_eq_nil.mp huv.symm
      subst hu
      subst hv
      exact ⟨h1, h2⟩
  | star a iha => exact ⟨fun _ => .starNil, fun _ => rfl⟩

theorem deriv_iff {r : Regex} {c : Char} {s : List Char} :
    RLang (r.deriv c) s ↔ RLang r (c :: s) := by
  induction r generalizing s with
  | emp =>
    simp only [Regex.deriv]
    constructor
    · intro h; cases h
    · intro h; cases h
  | eps =>
    simp only [Regex.deriv]
    constructor
    · intro h; cases h
    · intro h; cases h
  | chr d =>
    simp only [Regex.deriv]
    by_cases hdc : d = c
    · subst hdc
      rw [if_pos rfl]
      constructor
      · intro h
        cases h
        exact .chr
      · intro h
        cases h
        exact .eps
    · rw [if_neg hdc]
      constructor
      · intro h; cases h
      · intro h
        cases h
        exact absurd rfl hdc
  | any =>
    simp only [Regex.deriv]
    constructor
    · intro h
      cases h
      exact .any
    · intro h
      cases h
      exact .eps
  | alt a b iha ihb =>
    simp only [Regex.deriv]
    constructor
    · intro h
      cases h with
      | altL h => exact .altL (iha.mp h)
      | altR h => exact .altR (ihb.mp h)
    · intro h
      cases h with
      | altL h => exact .altL (iha.mpr h)
      | altR h => exact .altR (ihb.mpr h)
  | seq a b iha ihb =>
    simp only [Regex.deriv]
    by_cases hn : a.nullable = true
    · rw [if_pos hn]
      constructor
      · intro h
        cases h with
        | altL h =>
          obtain ⟨u, v, rfl, h1, h2⟩ := RLang_seq_inv h
          exact List.cons_append c u v ▸ RLang.seq (iha.mp h1) h2
        | altR h =>
          exact List.nil_append (c :: s) ▸
            RLang.seq (nullable_iff.mp hn) (ihb.mp h)
      · intro h
        obtain ⟨u, v, huv, h1, h2⟩ := RLang_seq_inv h
        cases u with
        | nil =>
          simp only [List.nil_append] at huv
          subst huv
          exact .altR (ihb.mpr h2)
        | cons d u' =>
          rw [List.cons_append] at huv
          cases huv
          exact .altL (RLang.seq (iha.mpr h1) h2)
    · rw [if_neg hn]
      constructor
      · intro h
        obtain ⟨u, v, rfl, h1, h2⟩ := RLang_seq_inv h
        exact List.cons_append c u v ▸ RLang.seq (iha.mp h1) h2
      · intro h
        obtain ⟨u, v, huv, h1, h2⟩ := RLang_seq_inv h
        cases u with
        | nil =>
          simp only [List.nil_append] at huv
          exact absurd (nullable_iff.mpr h1) hn
        | cons d u' =>
          rw [List.cons_append] at huv
          cases huv
          exact RLang.seq (iha.mpr h1) h2
  | star a iha =>
    simp only [Regex.deriv]
    constructor
    · intro h
      obtain ⟨u, v, rfl, h1, h2⟩ := RLang_seq_inv h
      exact List.cons_append c u v ▸ RLang.starCons (iha.mp h1) h2
    · intro h
      obtain ⟨u, v, rfl, h1, h2⟩ := RLang_star_cons h
      exact RLang.seq (iha.mpr h1) h2

theorem rmatch_iff {r : Regex} {s : List Char} :
    rmatch r s = true ↔ RLang r s := by
  induction s generalizing r with
  | nil => exact nullable_iff
  | cons c s ih =>
    simp only [rmatch]
    exact ih.trans deriv_iff

/-- The spec's glob semantics, taken from its words: `*` matches any run of
characters (including none); every other pattern character — including `.` —
matches itself literally; matching is anchored (whole-string). -/
inductive GlobMatches : List Char → List Char → Prop where
  | nil : GlobMatches [] []
  | lit {c : Char} {p s : List Char} :
      c ≠ '*' → GlobMatches p s → GlobMatches (c :: p) (c :: s)
  | starSkip {p s : List Char} :
      GlobMatches p s → GlobMatches ('*' :: p) s
  | starCons {c : Char} {p s : List Char} :
      GlobMatches ('*' :: p) s → GlobMatches ('*' :: p) (c :: s)

/-- Characters a rule pattern may use without leaving the literal-glob
fragment: anything except `\`, the repetition operators, and the regex
metacharacters `matchGlob` leaves unescaped. -/
def globSafeChar (c : Char) : Prop :=
  c ∉ ('\\' :: '+' :: '?' :: unsupportedMeta)

instance : DecidablePred globSafeChar := fun c => by
  unfold globSafeChar; infer_instance

/-- The regex atoms the glob transformation produces on the safe fragment:
`*` becomes `.*` (star-of-any), everything else a literal character. -/
def globAtoms (p : List Char) : List Regex :=
  p.map (fun c => if c = '*' then .star .any else .chr c)

/-- The anchored regex `matchGlob` effectively compiles on the safe
fragment. -/
def globRegex (p : List Char) : Regex :=
  (globAtoms p).foldr Regex.seq .eps

theorem parseRegexAux_dot (xs : List Char) (acc : List Regex) :
    parseRegexAux ('.' :: xs) acc = parseRegexAux xs (.any :: acc) := by
  rw [parseRegexAux.eq_def]
  rfl

theorem parseRegexAux_escape (d : Char) (xs : List Char) (acc : List Regex) :
    parseRegexAux ('\\' :: d :: xs) acc = parseRegexAux xs (.chr d :: acc) := by
  rw [parseRegexAux.eq_def]
  rfl

theorem parseRegexAux_star (xs : List Char) (a : Regex) (acc : List Regex) :
    parseRegexAux ('*' :: xs) (a :: acc) = parseRegexAux xs (.star a :: acc) := by
  rw [parseRegexAux.eq_def]
  rfl

theorem parseRegexAux_other {c : Char} (h1 : c ≠ '\\') (h2 : c ≠ '.')
    (h3 : c ≠ '*') (h4 : c ≠ '+') (h5 : c ≠ '?') (h6 : c ∉ unsupportedMeta)
    (xs : List Char) (acc : List Regex) :
    parseRegexAux (c :: xs) acc = parseRegexAux xs (.chr c :: acc) := by
  rw [parseRegexAux.eq_def]
  simp [h1, h2, h3, h4, h5, h6]

theorem parseRegexAux_globBody {p : List Char}
    (hp : ∀ c ∈ p, c = '*' ∨ c = '.' ∨ globSafeChar c) (acc : List Regex) :
    parseRegexAux (globBody p) acc = some (acc.reverse ++ globAtoms p) := by
  induction p generalizing acc with
  | nil => simp [globBody, parseRegexAux, globAtoms]
  | cons c rest ih =>
    have hrest : ∀ c ∈ rest, c = '*' ∨ c = '.' ∨ globSafeChar c :=
      fun d hd => hp d (by simp [hd])
    have hbody : globBody (c :: rest) = globTranslate c ++ globBody rest := rfl
    by_cases hstar : c = '*'
    · subst hstar
      have ht : globTranslate '*' = ['.', '*'] := rfl
      rw [hbody, ht]
      show parseRegexAux ('.' :: '*' :: globBody rest) acc = _
      rw [parseRegexAux_dot, parseRegexAux_star, ih hrest]
      simp [globAtoms]
    · by_cases hdot : c = '.'
      · subst hdot
        have ht : globTranslate '.' = ['\\', '.'] := rfl
        rw [hbody, ht]
        show parseRegexAux ('\\' :: '.' :: globBody rest) acc = _
        rw [parseRegexAux_escape, ih hrest]
        simp [globAtoms]
      · have hc : globSafeChar c := by
          rcases hp c (by simp) with h | h | h
          · exact absurd h hstar
          · exact absurd h hdot
          · exact h
        have ht : globTranslate c = [c] := by
          simp [globTranslate, hstar, hdot]
        rw [hbody, ht]
        show parseRegexAux (c :: globBody rest) acc = _
        have h1 : c ≠ '\\' := fun h => hc (by rw [h]; simp)
        have h4 : c ≠ '+' := fun h => hc (by rw [h]; simp)
        have h5 : c ≠ '?' := fun h => hc (by rw [h]; simp)
        have h6 : c ∉ unsupportedMeta := fun h => hc (by simp [globSafeChar, h])
        rw [parseRegexAux_other h1 hdot hstar h4 h5 h6, ih hrest]
        simp [globAtoms, hstar]

theorem RLang_star_any (u : List Char) : RLang (.star .any) u := by
  induction u with
  | nil => exact .starNil
  | cons c u ih => exact List.singleton_append ▸ RLang.starCons .any ih

theorem globMatches_star_iff {p s : List Char} :
    GlobMatches ('*' :: p) s ↔ ∃ u v, s = u ++ v ∧ GlobMatches p v := by
  constructor
  · intro h
    generalize hq : '*' :: p = q at h
    induction h with
    | nil => cases hq
    | lit hne _ _ =>
      cases hq
      exact absurd rfl hne
    | starSkip h2 _ =>
      cases hq
      exact ⟨[], _, rfl, h2⟩
    | starCons _ ih =>
      obtain ⟨u, v, rfl, hm⟩ := ih hq
      exact ⟨_ :: u, v, rfl, hm⟩
  · rintro ⟨u, v, rfl, hm⟩
    induction u with
    | nil => exact .starSkip hm
    | cons d u ih => exact .starCons ih

theorem RLang_globRegex_iff {p s : List Char} :
    RLang (globRegex p) s ↔ GlobMatches p s := by
  induction p generalizing s with
  | nil =>
    simp only [globRegex, globAtoms, List.map_nil, List.foldr_nil]
    constructor
    · intro h
      cases h
      exact .nil
    · intro h
      cases h
      exact .eps
  | cons c rest ih =>
    have hfold : globRegex (c :: rest) =
        .seq (if c = '*' then .star .any else .chr c) (globRegex rest) := rfl
    rw [hfold]
    by_cases hc : c = '*'
    · subst hc
      rw [if_pos rfl]
      constructor
      · intro h
        obtain ⟨u, v, rfl, _, h2⟩ := RLang_seq_inv h
        exact globMatches_star_iff.mpr ⟨u, v, rfl, ih.mp h2⟩
      · intro h
        obtain ⟨u, v, rfl, hm⟩ := globMatches_star_iff.mp h
        exact RLang.seq (RLang_star_any u) (ih.mpr hm)
    · rw [if_neg hc]
      constructor
      · intro h
        obtain ⟨u, v, rfl, h1, h2⟩ := RLang_seq_inv h
        cases h1
        exact .lit hc (ih.mp h2)
      · intro h
        cases h with
        | lit hne h2 => exact List.singleton_append ▸ RLang.seq .chr (ih.mpr h2)
        | starSkip h2 => exact absurd rfl hc
        | starCons h2 => exact absurd rfl hc

end ComposeDiff
